import Mathlib

/-!
Verification of the `otf` serverless table database (Go) against its
natural-language specification.  The Go source is shallowly embedded:
pure functions become Lean functions, the mutable `client`/`transaction`
state becomes explicit state passing on a `St` record, Go maps become
association lists (where the code ranges over them) or `String → _`
functions (where only point lookups occur), the fixed
`[DATAOBJECT_SIZE][]any` array becomes a `Nat → Option Row` function,
and fallible operations return `Option Err` or `Except Err _`.
-/

namespace otf

/-- Column values as they appear in rows (`[]any` in the source).  The
JSON codec widens integers to floating point on a round trip, so both
kinds occur. -/
inductive Val where
  | vNull
  | vBool (b : Bool)
  | vInt (n : Int)
  | vFloat (q : Rat)
  | vStr (s : String)
deriving DecidableEq, Repr

/-- A row is an ordered list of column values (`[]any`). -/
abbrev Row := List Val

/-- A slot of the fixed-capacity data array, or a value returned by
`next`, is a Go slice which may be nil; `none` models the nil slice
(the zero value of `[]any`). -/
abbrev Slot := Option Row

/-- JSON round-trip widens integers to floats: Go unmarshals every JSON
number into `any` as `float64`. -/
def widenVal : Val → Val
  | .vInt n => .vFloat n
  | v => v

def widenRow (r : Row) : Row := r.map widenVal

def widenSlot (s : Slot) : Slot := s.map widenRow

/-- The error values surfaced by the embedded operations
(`errExistingTx`, `errNoTx`, `errTableExists`, `errNoTable`, the object
storage failures, decode failures, and the `panic` in `newTx` on an
action with no populated arm). -/
inductive Err where
  | existingTx
  | noTx
  | tableExists
  | noTable
  | alreadyExists (name : String)
  | notFound (name : String)
  | parseError
  | corruptLog
deriving DecidableEq, Repr

/-- `type DataobjectAction struct { Name, Table string }` -/
structure DataobjectAction where
  Name : String
  Table : String
deriving DecidableEq, Repr

/-- `type ChangeMetadataAction struct { Table string; Columns []string }` -/
structure ChangeMetadataAction where
  Table : String
  Columns : List String
deriving DecidableEq, Repr

/-- an enum, only one field will be non-nil -/
structure Action where
  AddDataobject : Option DataobjectAction := none
  ChangeMetadata : Option ChangeMetadataAction := none
deriving DecidableEq, Repr

/-- `const DATAOBJECT_SIZE int = 64 * 1024` -/
def DATAOBJECT_SIZE : Nat := 64 * 1024

/-- `type dataobject struct { Table, Name string; Data [DATAOBJECT_SIZE][]any; Len int }`.
The fixed array is modelled as a total function on slot indices; only
indices below `DATAOBJECT_SIZE` are ever used. -/
structure dataobject where
  Table : String
  Name : String
  Data : Nat → Slot
  Len : Nat

/-- JSON values, for the manifest wire format. -/
inductive Jval where
  | jnull
  | jbool (b : Bool)
  | jnum (q : Rat)
  | jstr (s : String)
  | jarr (elems : List Jval)
  | jobj (fields : List (String × Jval))

def jlookup (k : String) : List (String × Jval) → Option Jval
  | [] => none
  | (k', v) :: rest => if k' = k then some v else jlookup k rest

def jsonKeys : Jval → List String
  | .jobj fs => fs.map Prod.fst
  | _ => []

/-- encoding/json on `DataobjectAction`: both fields exported, struct
declaration order. -/
def marshalDAJson (d : DataobjectAction) : Jval :=
  .jobj [("Name", .jstr d.Name), ("Table", .jstr d.Table)]

/-- encoding/json on `ChangeMetadataAction`. -/
def marshalCMJson (c : ChangeMetadataAction) : Jval :=
  .jobj [("Table", .jstr c.Table), ("Columns", .jarr (c.Columns.map .jstr))]

/-- encoding/json on `Action`: both arms are emitted, a nil pointer arm
becomes JSON null. -/
def marshalActionJson (a : Action) : Jval :=
  .jobj
    [("AddDataobject",
        match a.AddDataobject with
        | some d => marshalDAJson d
        | none => .jnull),
     ("ChangeMetadata",
        match a.ChangeMetadata with
        | some c => marshalCMJson c
        | none => .jnull)]

/-- `json.Marshal` of a `transaction` value.  encoding/json serializes
only exported (capitalized) struct fields; of `transaction`'s fields
(`id`, `previousActions`, `Actions`, `tables`, `unflushedData`,
`unflushedDataPointer`) only `Actions` is exported, so the encoded
object has exactly that one key.  (Go additionally sorts map keys when
encoding; key order of a JSON object is irrelevant to decoding, so the
association order is kept here.) -/
def marshalTxJson (acts : List (String × List Action)) : Jval :=
  .jobj [("Actions", .jobj (acts.map (fun p => (p.1, .jarr (p.2.map marshalActionJson)))))]

def decodeDAJson : Jval → Except Err DataobjectAction
  | .jobj fs =>
    match jlookup "Name" fs, jlookup "Table" fs with
    | some (.jstr n), some (.jstr t) => .ok { Name := n, Table := t }
    | _, _ => .error .parseError
  | _ => .error .parseError

def decodeStrList : List Jval → Except Err (List String)
  | [] => .ok []
  | .jstr s :: rest =>
    match decodeStrList rest with
    | .error e => .error e
    | .ok l => .ok (s :: l)
  | _ :: _ => .error .parseError

def decodeCMJson : Jval → Except Err ChangeMetadataAction
  | .jobj fs =>
    match jlookup "Table" fs, jlookup "Columns" fs with
    | some (.jstr t), some (.jarr cols) =>
      match decodeStrList cols with
      | .error e => .error e
      | .ok l => .ok { Table := t, Columns := l }
    | _, _ => .error .parseError
  | _ => .error .parseError

/-- Decoding one nullable arm of an `Action`: JSON null (or an absent
key) leaves the pointer nil. -/
def decodeOptArm (dec : Jval → Except Err α) : Option Jval → Except Err (Option α)
  | none => .ok none
  | some .jnull => .ok none
  | some v =>
    match dec v with
    | .error e => .error e
    | .ok a => .ok (some a)

def decodeActionJson : Jval → Except Err Action
  | .jobj fs =>
    match decodeOptArm decodeDAJson (jlookup "AddDataobject" fs) with
    | .error e => .error e
    | .ok add =>
      match decodeOptArm decodeCMJson (jlookup "ChangeMetadata" fs) with
      | .error e => .error e
      | .ok cm => .ok { AddDataobject := add, ChangeMetadata := cm }
  | _ => .error .parseError

def decodeActionList : List Jval → Except Err (List Action)
  | [] => .ok []
  | v :: rest =>
    match decodeActionJson v with
    | .error e => .error e
    | .ok a =>
      match decodeActionList rest with
      | .error e => .error e
      | .ok as => .ok (a :: as)

def decodeActionsEntries : List (String × Jval) → Except Err (List (String × List Action))
  | [] => .ok []
  | (k, v) :: rest =>
    match v with
    | .jarr l =>
      match decodeActionList l with
      | .error e => .error e
      | .ok as =>
        match decodeActionsEntries rest with
        | .error e => .error e
        | .ok m => .ok ((k, as) :: m)
    | _ => .error .parseError

/-- `json.Unmarshal(bytes, &tx)` as used by `getTxActions`: only the
exported `Actions` field is populated from the wire object. -/
def decodeTxActions : Jval → Except Err (List (String × List Action))
  | .jobj fs =>
    match jlookup "Actions" fs with
    | some (.jobj entries) => decodeActionsEntries entries
    | _ => .error .parseError
  | _ => .error .parseError

/-- A stored blob: either an encoded `dataobject` (all four fields are
exported, so the full slot array and `Len` round-trip; integer widening
is applied on read by `readDataobject`) or an encoded manifest. -/
inductive Blob where
  | dataBlob (o : dataobject)
  | jsonBlob (v : Jval)

/-- The object store: named blobs in creation order. -/
structure Store where
  entries : List (String × Blob)

def slookup (name : String) : List (String × Blob) → Option Blob
  | [] => none
  | (k, b) :: rest => if k = name then some b else slookup name rest

def Store.lookup (s : Store) (name : String) : Option Blob :=
  slookup name s.entries

/-- `putIfAbsent`: `O_EXCL` create, failing when the key exists; on an
intermediate write failure the partial blob is removed, so the store
either gains the whole blob or is unchanged. -/
def Store.putIfAbsent (s : Store) (name : String) (b : Blob) : Except Err Store :=
  match s.lookup name with
  | some _ => .error (.alreadyExists name)
  | none => .ok ⟨s.entries ++ [(name, b)]⟩

def Store.read (s : Store) (name : String) : Except Err Blob :=
  match s.lookup name with
  | some b => .ok b
  | none => .error (.notFound name)

/-- `strings.HasPrefix`, byte for byte (keys here are ASCII, so the
character list order coincides with byte order). -/
def hasPre (s pre : String) : Bool := pre.data.isPrefixOf s.data

/-- Key listing of the modelled object store: keys carrying the prefix,
in entry-creation order.  The spec's `objectStorage` contract demands
ascending byte-wise order; log keys are created in ascending order by
the commit protocol, so on the states quantified over here the two
coincide.  (`fileObjectStorage.listPrefix`, the file-backed collaborator,
is modelled separately as `fileListPre` below.) -/
def Store.listPre (s : Store) (pre : String) : List String :=
  (s.entries.map Prod.fst).filter (fun k => hasPre k pre)

/-- `fileObjectStorage.listPrefix`: `Readdirnames(100)` returns entries
in directory enumeration order, batches of 100 preserve that order, and
no sort is applied; the result is the filtered enumeration order. -/
def fileListPre (dirNames : List String) (pre : String) : List String :=
  dirNames.filter (fun k => hasPre k pre)

/-- Lexicographic strict comparison of character lists. -/
def charsLt : List Char → List Char → Bool
  | [], [] => false
  | [], _ :: _ => true
  | _ :: _, [] => false
  | a :: as, b :: bs =>
    if a.toNat < b.toNat then true
    else if a.toNat = b.toNat then charsLt as bs
    else false

/-- Byte-wise (strict) comparison of names, as the spec's sortedness
requirement reads it (keys are ASCII, where character order is byte
order). -/
def bytewiseLt (a b : String) : Bool := charsLt a.data b.data

def digitChar : Nat → Char
  | 0 => '0'
  | 1 => '1'
  | 2 => '2'
  | 3 => '3'
  | 4 => '4'
  | 5 => '5'
  | 6 => '6'
  | 7 => '7'
  | 8 => '8'
  | _ => '9'

def charToDigit (c : Char) : Nat := c.toNat - 48

def parseChars (l : List Char) : Nat :=
  l.foldl (fun a c => 10 * a + charToDigit c) 0

def renderNatAux : Nat → Nat → List Char
  | 0, _ => []
  | fuel + 1, n =>
    if n < 10 then [digitChar n]
    else renderNatAux fuel (n / 10) ++ [digitChar (n % 10)]

/-- Decimal rendering of a natural number (big-endian digit list). -/
def renderNat (n : Nat) : List Char := renderNatAux (n + 1) n

/-- `fmt.Sprintf("%020d", id)` for nonnegative ids: the decimal digits,
left-padded with zeros to 20 characters. -/
def pad20 (n : Nat) : String :=
  ⟨List.replicate (20 - (renderNat n).length) '0' ++ renderNat n⟩

/-- The log key `_log_<20-digit zero-padded id>` written by `commitTx`. -/
def logKey (n : Nat) : String := "_log_" ++ pad20 n

/-- `strconv.Atoi` restricted to the unsigned decimal strings this
system generates as log-key ids; other inputs are rejected. -/
def atoi (s : String) : Except Err Nat :=
  if s.data.isEmpty then .error .parseError
  else if s.data.all Char.isDigit then .ok (parseChars s.data)
  else .error .parseError

/-- Go string slicing `s[n:]` on the character list. -/
def dropChars (n : Nat) (s : String) : String := ⟨s.data.drop n⟩

def alookup (k : String) : List (String × α) → Option α
  | [] => none
  | (k', v) :: rest => if k' = k then some v else alookup k rest

def asetList (k : String) (v : α) : List (String × α) → List (String × α)
  | [] => [(k, v)]
  | (k', v') :: rest =>
    if k' = k then (k, v) :: rest else (k', v') :: asetList k v rest

/-- `m[k] = append(m[k], x)` on a list-valued Go map. -/
def apush (k : String) (x : α) (m : List (String × List α)) : List (String × List α) :=
  asetList k ((alookup k m).getD [] ++ [x]) m

/-- `type transaction struct`.  `Actions` and `tables` are association
lists because `commitTx` ranges over them; `previousActions` and the two
unflushed maps are only read pointwise and are modelled as functions.
`unflushedData` holds the per-table fixed array (`*[DATAOBJECT_SIZE][]any`). -/
structure Tx where
  id : Nat
  previousActions : String → List Action
  Actions : List (String × List Action)
  tables : List (String × List String)
  unflushedData : String → Option (Nat → Slot)
  unflushedDataPointer : String → Option Nat

/-- A client together with the world it acts on: the shared object
store and the source of UUIDv4 names (`uuidv4()` reads /dev/random; the
supply is modelled as a function of a draw counter). -/
structure St where
  tx : Option Tx
  store : Store
  uuidGen : Nat → String
  uuidCtr : Nat

/-- `client.getTxActions`: read a log blob and decode its `Actions`. -/
def getTxActions (store : Store) (name : String) : Except Err (List (String × List Action)) :=
  match store.read name with
  | .error e => .error e
  | .ok (.jsonBlob v) => decodeTxActions v
  | .ok (.dataBlob _) => .error .parseError

/-- The inner loop of `newTx` over one table's action list of a decoded
manifest: an `AddDataobject` arm is appended to `previousActions[table]`,
a `ChangeMetadata` arm sets `tables[table]`, an action with neither arm
hits the `panic` (modelled as a `corruptLog` error). -/
def foldActions (table : String) :
    List Action → (String → List Action) → List (String × List String) →
    Except Err ((String → List Action) × List (String × List String))
  | [], prev, tbls => .ok (prev, tbls)
  | a :: rest, prev, tbls =>
    match a.AddDataobject with
    | some _ =>
      foldActions table rest (fun k => if k = table then prev k ++ [a] else prev k) tbls
    | none =>
      match a.ChangeMetadata with
      | some mtd => foldActions table rest prev (asetList table mtd.Columns tbls)
      | none => .error .corruptLog

def foldManifest :
    List (String × List Action) → (String → List Action) → List (String × List String) →
    Except Err ((String → List Action) × List (String × List String))
  | [], prev, tbls => .ok (prev, tbls)
  | (table, acts) :: rest, prev, tbls =>
    match foldActions table acts prev tbls with
    | .error e => .error e
    | .ok (prev', tbls') => foldManifest rest prev' tbls'

def foldLogs (store : Store) :
    List String → (String → List Action) → List (String × List String) →
    Except Err ((String → List Action) × List (String × List String))
  | [], prev, tbls => .ok (prev, tbls)
  | name :: rest, prev, tbls =>
    match getTxActions store name with
    | .error e => .error e
    | .ok acts =>
      match foldManifest acts prev tbls with
      | .error e => .error e
      | .ok (prev', tbls') => foldLogs store rest prev' tbls'

/-- `client.newTx`: list `_log_` keys, derive the next id from the last
listed key (or 0 when none), fold every manifest into the snapshot, and
install the fresh transaction. -/
def newTx (s : St) : Option Err × St :=
  match s.tx with
  | some _ => (some .existingTx, s)
  | none =>
    let txLogs := s.store.listPre "_log_"
    let lastRes : Except Err Nat :=
      match txLogs.getLast? with
      | none => .ok 0
      | some k => atoi (dropChars 5 k)
    match lastRes with
    | .error e => (some e, s)
    | .ok lastTxId =>
      match foldLogs s.store txLogs (fun _ => []) [] with
      | .error e => (some e, s)
      | .ok (prev, tbls) =>
        (none,
          { s with
            tx := some
              { id := lastTxId + 1
                previousActions := prev
                Actions := []
                tables := tbls
                unflushedData := fun _ => none
                unflushedDataPointer := fun _ => none } })

/-- `client.createTable`. -/
def createTable (s : St) (table : String) (columns : List String) : Option Err × St :=
  match s.tx with
  | none => (some .noTx, s)
  | some tx =>
    match alookup table tx.tables with
    | some _ => (some .tableExists, s)
    | none =>
      (none,
        { s with
          tx := some
            { tx with
              tables := asetList table columns tx.tables
              Actions :=
                apush table
                  { ChangeMetadata := some { Table := table, Columns := columns } }
                  tx.Actions } })

/-- `client.flushRows`: a no-op when the per-table buffer is absent or
empty; otherwise seal the buffer into a dataobject named by a fresh
uuid, write it at `_table_<table>_<name>` (the `json.Marshal` of the
dataobject is total on these values, so the only failure is the
store's), record the `AddDataobject` action and reset the pointer.  On a
store failure the transaction state is untouched (only the uuid draw is
consumed). -/
def flushRows (s : St) (table : String) : Option Err × St :=
  match s.tx with
  | none => (some .noTx, s)
  | some tx =>
    match tx.unflushedDataPointer table with
    | none => (none, s)
    | some pointer =>
      if pointer = 0 then (none, s)
      else
        let name := s.uuidGen s.uuidCtr
        let s₁ := { s with uuidCtr := s.uuidCtr + 1 }
        let df : dataobject :=
          { Table := table
            Name := name
            Data := (tx.unflushedData table).getD (fun _ => none)
            Len := pointer }
        match s₁.store.putIfAbsent ("_table_" ++ table ++ "_" ++ name) (.dataBlob df) with
        | .error e => (some e, s₁)
        | .ok store' =>
          (none,
            { s₁ with
              store := store'
              tx := some
                { tx with
                  Actions :=
                    apush table { AddDataobject := some { Name := name, Table := table } }
                      tx.Actions
                  unflushedDataPointer :=
                    fun k => if k = table then some 0 else tx.unflushedDataPointer k } })

/-- `client.writeRow`: lazily initialize the buffer, flush when full
(the flush error is discarded and the local pointer reset to 0
regardless of the outcome), store the row and increment the counter. -/
def writeRow (s : St) (table : String) (row : Slot) : Option Err × St :=
  match s.tx with
  | none => (some .noTx, s)
  | some tx =>
    match alookup table tx.tables with
    | none => (some .noTable, s)
    | some _ =>
      let pointer := (tx.unflushedDataPointer table).getD 0
      let tx₁ :=
        match tx.unflushedDataPointer table with
        | some _ => tx
        | none =>
          { tx with
            unflushedDataPointer :=
              fun k => if k = table then some 0 else tx.unflushedDataPointer k
            unflushedData :=
              fun k => if k = table then some (fun _ => none) else tx.unflushedData k }
      let s₁ := { s with tx := some tx₁ }
      let s₂ := if pointer = DATAOBJECT_SIZE then (flushRows s₁ table).2 else s₁
      let pointer₂ := if pointer = DATAOBJECT_SIZE then 0 else pointer
      match s₂.tx with
      | none => (some .noTx, s₂)
      | some tx₂ =>
        let arr := (tx₂.unflushedData table).getD (fun _ => none)
        (none,
          { s₂ with
            tx := some
              { tx₂ with
                unflushedData :=
                  fun k =>
                    if k = table then some (fun i => if i = pointer₂ then row else arr i)
                    else tx₂.unflushedData k
                unflushedDataPointer :=
                  fun k =>
                    if k = table then some ((tx₂.unflushedDataPointer table).getD 0 + 1)
                    else tx₂.unflushedDataPointer k } })

/-- `type scanIterator struct`. -/
structure scanIterator where
  table : String
  unflushedRows : Nat → Slot
  unflushedRowsLen : Nat
  unflushedRowPointer : Nat
  dataobjects : List String
  dataobjectsPointer : Nat
  dataobject : Option dataobject
  dataobjectRowPointer : Nat

/-- `client.readDataobject`: read `_table_<table>_<name>` and decode.
The JSON round-trip widens integer values in rows to floats. -/
def readDataobject (store : Store) (table name : String) : Except Err dataobject :=
  match store.read ("_table_" ++ table ++ "_" ++ name) with
  | .error e => .error e
  | .ok (.dataBlob o) => .ok { o with Data := fun i => widenSlot (o.Data i) }
  | .ok (.jsonBlob _) => .error .parseError

/-- `scanIterator.next`; returns `.ok none` where the Go code returns
`(nil, nil)` — as a done signal as well as for a nil row slot, which are
indistinguishable to callers.  The fuel bounds the internal recursion
taken when advancing past an exhausted data object; a freshly advanced
object has row pointer 0 and is yielded from (or found absent)
immediately, so the recursion is at most one call deep and fuel 2 is
always sufficient. -/
def next (store : Store) : Nat → scanIterator → Except Err Slot × scanIterator
  | 0, si => (.ok none, si)
  | fuel + 1, si =>
    if si.unflushedRowPointer < si.unflushedRowsLen then
      (.ok (si.unflushedRows si.unflushedRowPointer),
        { si with unflushedRowPointer := si.unflushedRowPointer + 1 })
    else if si.dataobjectsPointer = si.dataobjects.length then
      (.ok none, si)
    else
      let loaded : Except Err dataobject :=
        match si.dataobject with
        | some o => .ok o
        | none => readDataobject store si.table (si.dataobjects.getD si.dataobjectsPointer "")
      match loaded with
      | .error e => (.error e, si)
      | .ok o =>
        let si₁ := { si with dataobject := some o }
        if si₁.dataobjectRowPointer > o.Len then
          next store fuel
            { si₁ with
              dataobjectsPointer := si₁.dataobjectsPointer + 1
              dataobject := none
              dataobjectRowPointer := 0 }
        else
          (.ok (o.Data si₁.dataobjectRowPointer),
            { si₁ with dataobjectRowPointer := si₁.dataobjectRowPointer + 1 })

/-- One call of `next` with always-sufficient fuel. -/
def callNext (store : Store) (si : scanIterator) : Except Err Slot × scanIterator :=
  next store 2 si

/-- The results of `k` successive `next` calls, with the iterator
threaded through. -/
def runNextN (store : Store) : Nat → scanIterator → List (Except Err Slot) × scanIterator
  | 0, si => ([], si)
  | k + 1, si =>
    let p := callNext store si
    let q := runNextN store k p.2
    (p.1 :: q.1, q.2)

def nextN (store : Store) (k : Nat) (si : scanIterator) : List (Except Err Slot) :=
  (runNextN store k si).1

/-- The consumption loop callers use on a scan (as in the tests):
collect rows until the first nil result — which also stands for
end-of-scan — or an error. -/
def drainRows (store : Store) : Nat → scanIterator → Except Err (List Row)
  | 0, _ => .ok []
  | k + 1, si =>
    match callNext store si with
    | (.error e, _) => .error e
    | (.ok none, _) => .ok []
    | (.ok (some r), si₁) =>
      match drainRows store k si₁ with
      | .error e => .error e
      | .ok rs => .ok (r :: rs)

/-- `client.scan`: capture the durable data-object names
(`previousActions[table]` then `Actions[table]`, filtered to
`AddDataobject`), a by-value copy of the unflushed array, and the
unflushed length. -/
def scan (s : St) (table : String) : Except Err scanIterator :=
  match s.tx with
  | none => .error .noTx
  | some tx =>
    let allActions := tx.previousActions table ++ (alookup table tx.Actions).getD []
    let dataobjects := (allActions.filterMap (fun a => a.AddDataobject)).map (fun d => d.Name)
    .ok
      { table := table
        unflushedRows := (tx.unflushedData table).getD (fun _ => none)
        unflushedRowsLen := (tx.unflushedDataPointer table).getD 0
        unflushedRowPointer := 0
        dataobjects := dataobjects
        dataobjectsPointer := 0
        dataobject := none
        dataobjectRowPointer := 0 }

/-- The flush loop of `commitTx` over the transaction's table names. -/
def flushAll : List String → St → Option Err × St
  | [], s => (none, s)
  | t :: rest, s =>
    match flushRows s t with
    | (some e, s₁) => (some e, s₁)
    | (none, s₁) => flushAll rest s₁

/-- `client.commitTx`: flush every table; if no table has a pending
action the commit is read-only and returns without writing; otherwise
null `previousActions`, encode the transaction and `putIfAbsent` it at
the log key, clearing the transaction on success and on conflict alike.
(`json.Marshal` of the manifest is total on these values.)  The
`getD tx₀` recovers the transaction after the flush loop, which always
preserves it. -/
def commitTx (s : St) : Option Err × St :=
  match s.tx with
  | none => (some .noTx, s)
  | some tx₀ =>
    match flushAll (tx₀.tables.map Prod.fst) s with
    | (some e, s₁) => (some e, s₁)
    | (none, s₁) =>
      let tx₁ := s₁.tx.getD tx₀
      let wrote := tx₁.Actions.any (fun p => !p.2.isEmpty)
      if !wrote then (none, s₁)
      else
        let filename := "_log_" ++ pad20 tx₁.id
        let tx₂ := { tx₁ with previousActions := fun _ => [] }
        match s₁.store.putIfAbsent filename (.jsonBlob (marshalTxJson tx₂.Actions)) with
        | .error e => (some e, { s₁ with tx := none })
        | .ok store' => (none, { s₁ with tx := none, store := store' })

/-- The table-level operations a client may run between `newTx` and
`commitTx` (`scan` is read-only and does not change state). -/
inductive TableOp where
  | create (table : String) (columns : List String)
  | write (table : String) (row : Slot)
  | flush (table : String)

def runOp (s : St) : TableOp → St
  | .create t cols => (createTable s t cols).2
  | .write t r => (writeRow s t r).2
  | .flush t => (flushRows s t).2

def runOps : List TableOp → St → St
  | [], s => s
  | op :: rest, s => runOps rest (runOp s op)

/-! ### Concrete states used to evaluate the embedded code -/

/-- A concrete uuid supply (draws "0", "1", ...); uuid collisions are
cryptographically impossible in the source, and these draws are
pairwise distinct. -/
def demoGen : Nat → String := fun n => ⟨renderNat n⟩

/-- A client on an empty store. -/
def st0 : St := { tx := none, store := ⟨[]⟩, uuidGen := demoGen, uuidCtr := 0 }

def rowA : Row := [.vStr "a"]

def rowB : Row := [.vStr "b"]

def rowC : Row := [.vStr "c"]

def rowD : Row := [.vStr "d"]

/-- Begin on an empty store, then: write rows a and b, flush (first data
object, Len 2), write row c, flush (second data object, Len 1 — its
slot 1 still holds the stale row b from the first fill). -/
def c1St : St :=
  runOps
    [.create "x" ["col"], .write "x" (some rowA), .write "x" (some rowB), .flush "x",
     .write "x" (some rowC), .flush "x"]
    (newTx st0).2

/-- The results of six successive `next` calls on a scan of the state
above. -/
def c1Results : List (Except Err Slot) :=
  match scan c1St "x" with
  | .ok it => nextN c1St.store 6 it
  | .error _ => []

/-- The `Len` field of the second data object written above. -/
def c1ObjLen : Option Nat :=
  match readDataobject c1St.store "x" "1" with
  | .ok o => some o.Len
  | .error _ => none

/-- As `c1St`, with one more unflushed row d at scan time. -/
def c2St : St :=
  runOps
    [.create "x" ["col"], .write "x" (some rowA), .write "x" (some rowB), .flush "x",
     .write "x" (some rowC), .flush "x", .write "x" (some rowD)]
    (newTx st0).2

/-- What a consumer of the scan over `c2St` collects. -/
def c2Drained : Except Err (List Row) :=
  match scan c2St "x" with
  | .ok it => drainRows c2St.store 10 it
  | .error _ => .error .noTx

/-- A directory whose enumeration order lists the id-2 log key before
the id-1 log key (`Readdirnames` gives no ordering guarantee). -/
def c3Dir : List String := [logKey 2, logKey 1]

/-- The state of a client right after a commit of a fresh (hence
read-only) transaction on the empty store. -/
def c4St : St := (commitTx (newTx st0).2).2

/-- Begin on the empty store, create table x, commit: the store now
holds the manifest of transaction 1. -/
def c5St : St := (commitTx (createTable (newTx st0).2 "x" ["a", "b"]).2).2

/-- The key set of the JSON object stored at `name`. -/
def manifestKeysAt (s : Store) (name : String) : Option (List String) :=
  (s.lookup name).map fun b =>
    match b with
    | .jsonBlob v => jsonKeys v
    | .dataBlob _ => []

/-! ### Iterator lemmas

`next` branches: unflushed yield, done, load (with possible error),
in-object yield, and the advance recursion.  The recursion only fires on
a loaded object whose row pointer exceeds `Len`; the advanced state has
no loaded object and row pointer 0, from which no further recursion is
possible, so fuel 2 (`callNext`) is always sufficient. -/

/-- The sequence of slots `[o.Data 0, …, o.Data o.Len]` that the
iterator yields from one data object — note the slot at index `Len` is
included, an effect of the `>` comparison in `next`. -/
def objSlotsThrough (o : dataobject) : List Slot :=
  (List.range (o.Len + 1)).map o.Data

theorem next_unflushed (store : Store) (fuel : Nat) (si : scanIterator)
    (h : si.unflushedRowPointer < si.unflushedRowsLen) :
    next store (fuel + 1) si =
      (.ok (si.unflushedRows si.unflushedRowPointer),
        { si with unflushedRowPointer := si.unflushedRowPointer + 1 }) := by
  simp [next, h]

theorem next_done (store : Store) (fuel : Nat) (si : scanIterator)
    (h : ¬ si.unflushedRowPointer < si.unflushedRowsLen)
    (h2 : si.dataobjectsPointer = si.dataobjects.length) :
    next store (fuel + 1) si = (.ok none, si) := by
  simp [next, h, h2]

theorem next_yield_loaded (store : Store) (fuel : Nat) (si : scanIterator) (o : dataobject)
    (h : ¬ si.unflushedRowPointer < si.unflushedRowsLen)
    (h2 : ¬ si.dataobjectsPointer = si.dataobjects.length)
    (ho : si.dataobject = some o)
    (hr : ¬ si.dataobjectRowPointer > o.Len) :
    next store (fuel + 1) si =
      (.ok (o.Data si.dataobjectRowPointer),
        { si with dataobject := some o, dataobjectRowPointer := si.dataobjectRowPointer + 1 }) := by
  simp [next, h, h2, ho, hr]

theorem next_load_yield (store : Store) (fuel : Nat) (si : scanIterator) (o : dataobject)
    (h : ¬ si.unflushedRowPointer < si.unflushedRowsLen)
    (h2 : ¬ si.dataobjectsPointer = si.dataobjects.length)
    (ho : si.dataobject = none)
    (hread : readDataobject store si.table (si.dataobjects.getD si.dataobjectsPointer "") = .ok o)
    (hr : ¬ si.dataobjectRowPointer > o.Len) :
    next store (fuel + 1) si =
      (.ok (o.Data si.dataobjectRowPointer),
        { si with dataobject := some o, dataobjectRowPointer := si.dataobjectRowPointer + 1 }) := by
  rw [List.getD_eq_getElem?_getD] at hread
  simp [next, h, h2, ho, hread, hr]

theorem next_load_error (store : Store) (fuel : Nat) (si : scanIterator) (e : Err)
    (h : ¬ si.unflushedRowPointer < si.unflushedRowsLen)
    (h2 : ¬ si.dataobjectsPointer = si.dataobjects.length)
    (ho : si.dataobject = none)
    (hread : readDataobject store si.table (si.dataobjects.getD si.dataobjectsPointer "") = .error e) :
    next store (fuel + 1) si = (.error e, si) := by
  rw [List.getD_eq_getElem?_getD] at hread
  simp [next, h, h2, ho, hread]

theorem next_advance (store : Store) (fuel : Nat) (si : scanIterator) (o : dataobject)
    (h : ¬ si.unflushedRowPointer < si.unflushedRowsLen)
    (h2 : ¬ si.dataobjectsPointer = si.dataobjects.length)
    (ho : si.dataobject = some o)
    (hr : si.dataobjectRowPointer > o.Len) :
    next store (fuel + 1) si =
      next store fuel
        { si with
          dataobjectsPointer := si.dataobjectsPointer + 1
          dataobject := none
          dataobjectRowPointer := 0 } := by
  simp [next, h, h2, ho, hr]

/-- From a state with no loaded object and row pointer 0, `next` does
not recurse, so the fuel is irrelevant (as long as it is positive). -/
theorem next_fuel_one (store : Store) (fuel : Nat) (si : scanIterator)
    (hno : si.dataobject = none) (hrp : si.dataobjectRowPointer = 0) :
    next store (fuel + 1) si = next store 1 si := by
  by_cases h : si.unflushedRowPointer < si.unflushedRowsLen
  · rw [next_unflushed store fuel si h, next_unflushed store 0 si h]
  · by_cases h2 : si.dataobjectsPointer = si.dataobjects.length
    · rw [next_done store fuel si h h2, next_done store 0 si h h2]
    · cases hread : readDataobject store si.table (si.dataobjects.getD si.dataobjectsPointer "") with
      | error e =>
        rw [next_load_error store fuel si e h h2 hno hread,
          next_load_error store 0 si e h h2 hno hread]
      | ok o =>
        have hr : ¬ si.dataobjectRowPointer > o.Len := by omega
        rw [next_load_yield store fuel si o h h2 hno hread hr,
          next_load_yield store 0 si o h h2 hno hread hr]

/-- A call on a stuck state (loaded object exhausted past `Len`) equals
a call on the advanced state. -/
theorem callNext_stuck (store : Store) (si : scanIterator) (o : dataobject)
    (h : ¬ si.unflushedRowPointer < si.unflushedRowsLen)
    (h2 : ¬ si.dataobjectsPointer = si.dataobjects.length)
    (ho : si.dataobject = some o)
    (hr : si.dataobjectRowPointer > o.Len) :
    callNext store si =
      callNext store
        { si with
          dataobjectsPointer := si.dataobjectsPointer + 1
          dataobject := none
          dataobjectRowPointer := 0 } := by
  show next store 2 si = next store 2 _
  rw [next_advance store 1 si o h h2 ho hr]
  exact (next_fuel_one store 1 _ rfl rfl).symm

theorem runNextN_add (store : Store) (a b : Nat) (si : scanIterator) :
    runNextN store (a + b) si =
      ((runNextN store a si).1 ++ (runNextN store b (runNextN store a si).2).1,
        (runNextN store b (runNextN store a si).2).2) := by
  induction a generalizing si with
  | zero => simp [runNextN]
  | succ a ih =>
    have : a + 1 + b = (a + b) + 1 := by omega
    rw [this]
    simp only [runNextN]
    rw [ih]
    rfl

theorem runNextN_stuck (store : Store) (k : Nat) (si : scanIterator) (o : dataobject)
    (h : ¬ si.unflushedRowPointer < si.unflushedRowsLen)
    (h2 : ¬ si.dataobjectsPointer = si.dataobjects.length)
    (ho : si.dataobject = some o)
    (hr : si.dataobjectRowPointer > o.Len) :
    runNextN store (k + 1) si =
      runNextN store (k + 1)
        { si with
          dataobjectsPointer := si.dataobjectsPointer + 1
          dataobject := none
          dataobjectRowPointer := 0 } := by
  conv => lhs; rw [runNextN]
  conv => rhs; rw [runNextN]
  rw [callNext_stuck store si o h h2 ho hr]

/-- The unflushed phase: `k` calls yield the buffer slots from the
current pointer, independently of the store. -/
theorem runNextN_unflushed (store : Store) (k : Nat) (si : scanIterator)
    (h : si.unflushedRowPointer + k ≤ si.unflushedRowsLen) :
    runNextN store k si =
      ((List.range k).map (fun i => .ok (si.unflushedRows (si.unflushedRowPointer + i))),
        { si with unflushedRowPointer := si.unflushedRowPointer + k }) := by
  induction k generalizing si with
  | zero => simp [runNextN]
  | succ k ih =>
    have hlt : si.unflushedRowPointer < si.unflushedRowsLen := by omega
    conv => lhs; rw [runNextN]
    show (_, _) = _
    rw [show callNext store si = next store (1 + 1) si from rfl,
      next_unflushed store 1 si hlt]
    rw [ih _ (by simp only [scanIterator.mk.injEq]; omega)]
    rw [List.range_succ_eq_map]
    refine congrArg₂ Prod.mk ?_ ?_
    · simp only [List.map_cons, List.map_map]
      refine congrArg₂ List.cons (by rw [Nat.add_zero]) ?_
      refine List.map_congr_left fun i _ => ?_
      simp only [Function.comp]
      rw [show si.unflushedRowPointer + 1 + i = si.unflushedRowPointer + (i + 1) by omega]
    · rw [show si.unflushedRowPointer + 1 + k = si.unflushedRowPointer + (k + 1) by omega]

/-- The in-object phase: with object `o` loaded and `k` more yields
available (row pointer + k ≤ Len + 1), `k` calls yield the object's
slots from the row pointer on. -/
theorem runNextN_within_object (store : Store) (k : Nat) (si : scanIterator) (o : dataobject)
    (h : ¬ si.unflushedRowPointer < si.unflushedRowsLen)
    (h2 : ¬ si.dataobjectsPointer = si.dataobjects.length)
    (ho : si.dataobject = some o)
    (hk : si.dataobjectRowPointer + k ≤ o.Len + 1) :
    runNextN store k si =
      ((List.range k).map (fun i => .ok (o.Data (si.dataobjectRowPointer + i))),
        { si with dataobject := some o, dataobjectRowPointer := si.dataobjectRowPointer + k }) := by
  induction k generalizing si with
  | zero =>
    simp only [runNextN, List.range_zero, List.map_nil, Nat.add_zero]
    rw [← ho]
  | succ k ih =>
    have hr : ¬ si.dataobjectRowPointer > o.Len := by omega
    have hstep := ih { si with dataobject := some o, dataobjectRowPointer := si.dataobjectRowPointer + 1 } h h2 rfl (by show si.dataobjectRowPointer + 1 + k ≤ o.Len + 1; omega)
    dsimp only at hstep
    conv => lhs; rw [runNextN]
    show (_, _) = _
    rw [show callNext store si = next store (1 + 1) si from rfl,
      next_yield_loaded store 1 si o h h2 ho hr]
    dsimp only
    rw [hstep]
    dsimp only
    rw [List.range_succ_eq_map]
    refine congrArg₂ Prod.mk ?_ ?_
    · simp only [List.map_cons, List.map_map]
      refine congrArg₂ List.cons (by rw [Nat.add_zero]) ?_
      refine List.map_congr_left fun i _ => ?_
      simp only [Function.comp]
      rw [show si.dataobjectRowPointer + 1 + i = si.dataobjectRowPointer + (i + 1) by omega]
    · rw [show si.dataobjectRowPointer + 1 + k = si.dataobjectRowPointer + (k + 1) by omega]

/-- A fresh data object (`Len + 1` calls): yields all its slots through
index `Len` and leaves the iterator stuck just past the object. -/
theorem runNextN_fresh_object (store : Store) (si : scanIterator) (o : dataobject)
    (h : ¬ si.unflushedRowPointer < si.unflushedRowsLen)
    (h2 : ¬ si.dataobjectsPointer = si.dataobjects.length)
    (hno : si.dataobject = none) (hrp : si.dataobjectRowPointer = 0)
    (hread : readDataobject store si.table (si.dataobjects.getD si.dataobjectsPointer "") = .ok o) :
    runNextN store (o.Len + 1) si =
      ((objSlotsThrough o).map .ok,
        { si with dataobject := some o, dataobjectRowPointer := o.Len + 1 }) := by
  have hr : ¬ si.dataobjectRowPointer > o.Len := by omega
  have hin := runNextN_within_object store o.Len
    { si with dataobject := some o, dataobjectRowPointer := si.dataobjectRowPointer + 1 } o h h2 rfl
    (by show si.dataobjectRowPointer + 1 + o.Len ≤ o.Len + 1; omega)
  dsimp only at hin
  rw [show o.Len + 1 = 1 + o.Len by omega, runNextN_add]
  have h1 : runNextN store 1 si =
      ([.ok (o.Data si.dataobjectRowPointer)],
        { si with dataobject := some o, dataobjectRowPointer := si.dataobjectRowPointer + 1 }) := by
    simp only [runNextN]
    rw [show callNext store si = next store (1 + 1) si from rfl,
      next_load_yield store 1 si o h h2 hno hread hr]
  rw [h1]
  dsimp only
  rw [hin]
  dsimp only
  refine congrArg₂ Prod.mk ?_ ?_
  · simp only [objSlotsThrough, List.range_succ_eq_map, List.map_cons, List.map_map,
      List.singleton_append, hrp]
    refine congrArg₂ List.cons rfl ?_
    refine List.map_congr_left fun i _ => ?_
    simp only [Function.comp]
    exact congrArg (fun m => Except.ok (o.Data m)) (by omega)
  · rw [hrp]

/-- The full durable phase plus the final done signal: consuming the
remaining data objects yields, for each, its slots through index `Len`,
and then one end-of-scan result. -/
theorem runNextN_objects (store : Store) (tb : String) (names : List String)
    (obs : List dataobject)
    (hf : List.Forall₂ (fun nm o => readDataobject store tb nm = .ok o) names obs) :
    ∀ si : scanIterator, si.table = tb →
      ¬ si.unflushedRowPointer < si.unflushedRowsLen →
      si.dataobject = none → si.dataobjectRowPointer = 0 →
      si.dataobjects.drop si.dataobjectsPointer = names →
      si.dataobjectsPointer ≤ si.dataobjects.length →
      runNextN store ((obs.map (fun o => o.Len + 1)).sum + 1) si =
        ((obs.map objSlotsThrough).flatten.map .ok ++ [.ok none],
          { si with
            dataobjectsPointer := si.dataobjects.length
            dataobject := none
            dataobjectRowPointer := 0 }) := by
  induction hf with
  | nil =>
    intro si htb hun hno hrp hdrop hle
    have hpl : si.dataobjectsPointer = si.dataobjects.length := by
      have := List.drop_eq_nil_iff.mp hdrop; omega
    simp only [List.map_nil, List.sum_nil, List.flatten_nil, Nat.zero_add]
    simp only [runNextN]
    rw [show callNext store si = next store (1 + 1) si from rfl, next_done store 1 si hun hpl]
    rw [← hpl, ← hno, ← hrp]
    rfl
  | @cons nm o names' obs' hr hrest ih =>
    intro si htb hun hno hrp hdrop hle
    have hlend : (si.dataobjects.drop si.dataobjectsPointer).length = names'.length + 1 := by
      rw [hdrop]; rfl
    rw [List.length_drop] at hlend
    have hlt : si.dataobjectsPointer < si.dataobjects.length := by omega
    have hne : ¬ si.dataobjectsPointer = si.dataobjects.length := by omega
    have hget : si.dataobjects.getD si.dataobjectsPointer "" = nm := by
      have hh := congrArg List.head? hdrop
      rw [List.head?_drop] at hh
      simp only [List.head?_cons] at hh
      simp [List.getD_eq_getElem?_getD, hh]
    have hread : readDataobject store si.table (si.dataobjects.getD si.dataobjectsPointer "") = .ok o := by
      rw [hget, htb]; exact hr
    have hsum : (((o :: obs').map (fun d => d.Len + 1)).sum + 1) =
        (o.Len + 1) + (((obs'.map (fun d => d.Len + 1)).sum) + 1) := by
      simp only [List.map_cons, List.sum_cons]; omega
    rw [hsum, runNextN_add]
    rw [runNextN_fresh_object store si o hun hne hno hrp hread]
    dsimp only
    have hstuck := runNextN_stuck store ((obs'.map (fun d => d.Len + 1)).sum)
      { si with dataobject := some o, dataobjectRowPointer := o.Len + 1 } o
      hun hne rfl (by show o.Len + 1 > o.Len; omega)
    dsimp only at hstuck
    rw [hstuck]
    have hdrop' : si.dataobjects.drop (si.dataobjectsPointer + 1) = names' := by
      have := List.drop_drop 1 si.dataobjectsPointer si.dataobjects
      rw [← this, hdrop]
      rfl
    have hrec := ih { si with
        dataobjectsPointer := si.dataobjectsPointer + 1
        dataobject := none
        dataobjectRowPointer := 0 }
      htb hun rfl rfl hdrop' (by show si.dataobjectsPointer + 1 ≤ si.dataobjects.length; omega)
    dsimp only at hrec
    rw [hrec]
    refine congrArg₂ Prod.mk ?_ rfl
    simp [objSlotsThrough, List.flatten_cons]

end otf

namespace otf

/-- A `flushRows` whose `putIfAbsent` hits an existing key returns the
error and leaves everything except the consumed uuid draw unchanged. -/
theorem flushRows_collision (s : St) (t : String) (tx : Tx) (p : Nat) (b : Blob)
    (htx : s.tx = some tx) (hp : tx.unflushedDataPointer t = some p) (hp0 : ¬ p = 0)
    (hcol : s.store.lookup ("_table_" ++ t ++ "_" ++ s.uuidGen s.uuidCtr) = some b) :
    flushRows s t =
      (some (.alreadyExists ("_table_" ++ t ++ "_" ++ s.uuidGen s.uuidCtr)),
        { s with uuidCtr := s.uuidCtr + 1 }) := by
  simp only [flushRows, htx, hp, if_neg hp0, Store.putIfAbsent]
  have : ({ s with uuidCtr := s.uuidCtr + 1 } : St).store.lookup
      ("_table_" ++ t ++ "_" ++ s.uuidGen s.uuidCtr) = some b := hcol
  rw [this]

theorem alookup_mem {α : Type _} (k : String) (m : List (String × α)) (v : α)
    (h : alookup k m = some v) : (k, v) ∈ m := by
  induction m with
  | nil => simp [alookup] at h
  | cons p rest ih =>
    obtain ⟨k', v'⟩ := p
    simp only [alookup] at h
    split at h
    · rename_i hk
      injection h with hv
      subst hv
      subst hk
      exact List.mem_cons_self _ _
    · exact List.mem_cons_of_mem _ (ih h)

/-- Complete case analysis of `flushRows` on a live transaction: store
failure (uuid draw consumed, nothing else), no-op (buffer absent or
empty), or success (data object appended to the store, `AddDataobject`
recorded, pointer reset). -/
theorem flushRows_characterize (s : St) (t : String) (tx : Tx) (htx : s.tx = some tx) :
    (∃ e, flushRows s t = (some e, { s with uuidCtr := s.uuidCtr + 1 })) ∨
    flushRows s t = (none, s) ∨
    (∃ blob,
      s.store.lookup ("_table_" ++ t ++ "_" ++ s.uuidGen s.uuidCtr) = none ∧
      flushRows s t =
        (none,
          { s with
            uuidCtr := s.uuidCtr + 1
            store := ⟨s.store.entries ++ [("_table_" ++ t ++ "_" ++ s.uuidGen s.uuidCtr, blob)]⟩
            tx := some
              { tx with
                Actions :=
                  apush t { AddDataobject := some { Name := s.uuidGen s.uuidCtr, Table := t } }
                    tx.Actions
                unflushedDataPointer :=
                  fun k => if k = t then some 0 else tx.unflushedDataPointer k } })) := by
  cases hp : tx.unflushedDataPointer t with
  | none =>
    right; left
    simp [flushRows, htx, hp]
  | some p =>
    by_cases hp0 : p = 0
    · right; left
      simp [flushRows, htx, hp, hp0]
    · cases hlk : s.store.lookup ("_table_" ++ t ++ "_" ++ s.uuidGen s.uuidCtr) with
      | some b =>
        left
        exact ⟨_, flushRows_collision s t tx p b htx hp hp0 hlk⟩
      | none =>
        right; right
        refine ⟨.dataBlob
          { Table := t
            Name := s.uuidGen s.uuidCtr
            Data := (tx.unflushedData t).getD (fun _ => none)
            Len := p }, hlk ▸ rfl, ?_⟩
        simp only [flushRows, htx, hp, if_neg hp0, Store.putIfAbsent]
        have hlk' : ({ s with uuidCtr := s.uuidCtr + 1 } : St).store.lookup
            ("_table_" ++ t ++ "_" ++ s.uuidGen s.uuidCtr) = none := hlk
        rw [hlk']

/-- `flushRows` keeps the transaction alive. -/
theorem flushRows_tx (s : St) (t : String) (tx : Tx) (htx : s.tx = some tx) :
    ∃ tx', (flushRows s t).2.tx = some tx' := by
  rcases flushRows_characterize s t tx htx with ⟨e, h⟩ | h | ⟨blob, _, h⟩
  · rw [h]; exact ⟨tx, htx⟩
  · rw [h]; exact ⟨tx, htx⟩
  · rw [h]; exact ⟨_, rfl⟩

/-- `flushAll` keeps the transaction alive. -/
theorem flushAll_tx (l : List String) (s : St) (tx : Tx) (htx : s.tx = some tx) :
    ∃ tx', (flushAll l s).2.tx = some tx' := by
  induction l generalizing s tx with
  | nil => exact ⟨tx, htx⟩
  | cons t rest ih =>
    obtain ⟨tx', htx'⟩ := flushRows_tx s t tx htx
    cases hfr : flushRows s t with
    | mk e? s' =>
      rw [hfr] at htx'
      cases e? with
      | some e => simp only [flushAll, hfr]; exact ⟨tx', htx'⟩
      | none => simp only [flushAll, hfr]; exact ih s' tx' htx'

/-- The pending-action count of a table. -/
def actLen (s : St) (k : String) : Nat :=
  match s.tx with
  | some tx => ((alookup k tx.Actions).getD []).length
  | none => 0

theorem alookup_asetList_self {α : Type _} (k : String) (v : α) (m : List (String × α)) :
    alookup k (asetList k v m) = some v := by
  induction m with
  | nil => simp [asetList, alookup]
  | cons p rest ih =>
    obtain ⟨k', v'⟩ := p
    by_cases hk : k' = k
    · simp [asetList, alookup, hk]
    · simp [asetList, alookup, hk, ih]

theorem alookup_asetList_ne {α : Type _} (k k' : String) (v : α) (m : List (String × α))
    (h : ¬ k' = k) : alookup k' (asetList k v m) = alookup k' m := by
  have hk' : ¬ k = k' := fun hh => h hh.symm
  induction m with
  | nil =>
    simp only [asetList, alookup]
    rw [if_neg hk']
  | cons p rest ih =>
    obtain ⟨k'', v''⟩ := p
    simp only [asetList]
    split
    · rename_i hk
      subst hk
      simp only [alookup]
      rw [if_neg hk', if_neg hk']
    · simp only [alookup, ih]

theorem alookup_apush_self {α : Type _} (k : String) (x : α) (m : List (String × List α)) :
    alookup k (apush k x m) = some ((alookup k m).getD [] ++ [x]) :=
  alookup_asetList_self k _ m

theorem alookup_apush_ne {α : Type _} (k k' : String) (x : α) (m : List (String × List α))
    (h : ¬ k' = k) : alookup k' (apush k x m) = alookup k' m :=
  alookup_asetList_ne k k' _ m h

/-- If, after a successful flush loop, every table's pending-action list
is empty, then every flush in the loop was a no-op and the state is
untouched. -/
theorem flushAll_ok_all_empty (l : List String) (s s₁ : St) (tx : Tx)
    (htx : s.tx = some tx) (h : flushAll l s = (none, s₁))
    (hemp : ∀ k, actLen s₁ k = 0) : s₁ = s := by
  induction l generalizing s tx with
  | nil =>
    simp only [flushAll, Prod.mk.injEq] at h
    exact h.2.symm
  | cons t rest ih =>
    cases hfr : flushRows s t with
    | mk e? s' =>
      cases e? with
      | some e => simp [flushAll, hfr] at h
      | none =>
        simp only [flushAll, hfr] at h
        obtain ⟨tx', htx'⟩ := flushRows_tx s t tx htx
        rw [hfr] at htx'
        have hs₁ : s₁ = s' := ih s' tx' htx' h
        subst hs₁
        rcases flushRows_characterize s t tx htx with ⟨e, hc⟩ | hc | ⟨blob, hnone, hc⟩
        · rw [hc] at hfr
          injection hfr with h1 _
          simp at h1
        · rw [hc] at hfr
          injection hfr with _ h2
          exact h2.symm
        · rw [hc] at hfr
          injection hfr with _ h2
          have hbad := hemp t
          rw [← h2] at hbad
          simp only [actLen, alookup_apush_self] at hbad
          simp at hbad

/-- The writeRow-only op sequences of claim C9. -/
def applyWrites : List (String × Slot) → St → St
  | [], s => s
  | (t, r) :: rest, s => applyWrites rest (writeRow s t r).2

/-! ### Claim theorems -/

/-- C1 (code_bug evidence).  The scan over `c1St` reaches two data
objects, with Len 2 and Len 1.  Because `scanIterator.next` compares the
row pointer with `>` instead of `>=`, each object also yields its slot
at index `Len`: the six successive `next` results are rows a and b, then
the nil slot at index 2 of the first object, then row c, then the stale
row b sitting at index 1 = Len of the second object (an entry the spec
says MUST NOT be read), then the end signal.  Per the claim the object
with Len 1 should contribute exactly one row. -/
theorem c1_next_reads_slot_at_Len :
    c1Results =
      [.ok (some rowA), .ok (some rowB), .ok none, .ok (some rowC), .ok (some rowB), .ok none] ∧
    c1ObjLen = some 1 := ⟨rfl, rfl⟩

/-- C2 (counterexample).  In `c2St` the unflushed buffer holds row d and
the durable data objects hold rows a, b (first object) and c (second
object).  The claim says the scan yields `[d, a, b, c]`; the consumer
loop actually collects `[d, a, b]` — the over-read nil slot at index
Len of the first data object is indistinguishable from the end-of-scan
signal, so row c of the second data object is lost. -/
theorem c2_counterexample :
    c2Drained = .ok [rowD, rowA, rowB] ∧
    [rowD, rowA, rowB] ≠ [rowD, rowA, rowB, rowC] := by
  exact ⟨rfl, by decide⟩

/-- C3 (code_bug evidence).  A directory whose enumeration order lists
the id-2 log key before the id-1 log key: `fileObjectStorage.listPrefix`
applies no sort, so it returns the keys in that order, although the
smaller key byte-wise-precedes the larger one; the last element is the
id-1 key, not the largest id, contradicting the claimed ascending
order. -/
theorem c3_listPre_unsorted :
    fileListPre c3Dir "_log_" = [logKey 2, logKey 1] ∧
    bytewiseLt (logKey 1) (logKey 2) = true ∧
    (fileListPre c3Dir "_log_").getLast? = some (logKey 1) := ⟨rfl, rfl, rfl⟩

/-- C4 (counterexample).  A fresh transaction on the empty store commits
read-only: `commitTx` returns ok, yet the client's transaction is NOT
consumed — `client.tx` is still set and a subsequent `newTx` fails with
ExistingTransaction, contrary to the claim. -/
theorem c4_counterexample :
    (commitTx (newTx st0).2).1 = none ∧
    c4St.tx.isSome = true ∧
    (newTx c4St).1 = some .existingTx := ⟨rfl, rfl, rfl⟩

/-- Fallback iterator (for total extraction from `Except`). -/
def defaultIt : scanIterator :=
  { table := ""
    unflushedRows := fun _ => none
    unflushedRowsLen := 0
    unflushedRowPointer := 0
    dataobjects := []
    dataobjectsPointer := 0
    dataobject := none
    dataobjectRowPointer := 0 }

/-- The transaction value held by `c2St`. -/
def c2Tx : Tx :=
  c2St.tx.getD
    { id := 0
      previousActions := fun _ => []
      Actions := []
      tables := []
      unflushedData := fun _ => none
      unflushedDataPointer := fun _ => none }

/-- The iterator of a scan of table x over `c2St`. -/
def c2It : scanIterator :=
  match scan c2St "x" with
  | .ok it => it
  | .error _ => defaultIt

/-- The two data objects durable in `c2St`. -/
def c2Obs : List dataobject :=
  match readDataobject c2St.store "x" "0", readDataobject c2St.store "x" "1" with
  | .ok a, .ok b => [a, b]
  | _, _ => []

/-- C2 (amended).  A scan captures the data-object names from
`previousActions[table]` followed by `Actions[table]`, filtered to
`AddDataobject`, in insertion order, and the unflushed length; the
sequence of `next` results is: the unflushed slots `[0,len)` in
insertion order, then for each durable data object its slots at indices
`[0, Len]` inclusive — one slot beyond `Len`, the effect of the `>`
comparison — then the end-of-scan signal. -/
theorem c2_amended (s : St) (tx : Tx) (table : String) (it : scanIterator)
    (obs : List dataobject)
    (htx : s.tx = some tx) (hscan : scan s table = .ok it)
    (hreads : List.Forall₂ (fun nm o => readDataobject s.store table nm = .ok o)
      it.dataobjects obs) :
    it.dataobjects =
      ((tx.previousActions table ++ (alookup table tx.Actions).getD []).filterMap
          (fun a => a.AddDataobject)).map (fun d => d.Name) ∧
    it.unflushedRowsLen = (tx.unflushedDataPointer table).getD 0 ∧
    nextN s.store (it.unflushedRowsLen + ((obs.map (fun o => o.Len + 1)).sum + 1)) it =
      (List.range it.unflushedRowsLen).map (fun i => .ok (it.unflushedRows i)) ++
        ((obs.map objSlotsThrough).flatten.map .ok ++ [.ok none]) := by
  simp only [scan, htx] at hscan
  injection hscan with hit
  subst hit
  refine ⟨rfl, rfl, ?_⟩
  show (runNextN _ _ _).1 = _
  rw [runNextN_add]
  rw [runNextN_unflushed s.store _ _ (by show 0 + _ ≤ _; omega)]
  dsimp only
  rw [runNextN_objects s.store table _ obs hreads _ rfl
    (by dsimp only; omega) rfl rfl (List.drop_zero _) (Nat.zero_le _)]
  dsimp only
  refine congrArg₂ (· ++ ·) ?_ rfl
  exact List.map_congr_left fun i _ => by rw [Nat.zero_add]

/-- C2 amended witness: the concrete scan over `c2St`, whose two durable
objects have Len 2 and Len 1. -/
theorem c2_amended_witness :
    c2St.tx = some c2Tx ∧ scan c2St "x" = .ok c2It ∧
    nextN c2St.store (c2It.unflushedRowsLen + ((c2Obs.map (fun o => o.Len + 1)).sum + 1)) c2It =
      (List.range c2It.unflushedRowsLen).map (fun i => .ok (c2It.unflushedRows i)) ++
        ((c2Obs.map objSlotsThrough).flatten.map .ok ++ [.ok none]) :=
  ⟨rfl, rfl,
    (c2_amended c2St c2Tx "x" c2It c2Obs rfl rfl
      (List.Forall₂.cons rfl (List.Forall₂.cons rfl List.Forall₂.nil))).2.2⟩

/-- C9 (confirmed).  The iterator captures the unflushed buffer and its
length by value at construction: whatever `writeRow` calls happen after
`scan` returned, draining the already-constructed iterator's unflushed
phase (in the world those writes produced) yields exactly the rows that
were buffered at construction time — `unflushedRowsLen` many, read from
the construction-time buffer, not from the mutated transaction. -/
theorem c9_scan_snapshot (s : St) (tx : Tx) (table : String) (it : scanIterator)
    (ws : List (String × Slot))
    (htx : s.tx = some tx) (hscan : scan s table = .ok it) :
    nextN (applyWrites ws s).store it.unflushedRowsLen it =
      (List.range it.unflushedRowsLen).map
        (fun i => .ok (((tx.unflushedData table).getD (fun _ => none)) i)) ∧
    it.unflushedRowsLen = (tx.unflushedDataPointer table).getD 0 := by
  simp only [scan, htx] at hscan
  injection hscan with hit
  subst hit
  refine ⟨?_, rfl⟩
  show (runNextN _ _ _).1 = _
  rw [runNextN_unflushed _ _ _ (by show 0 + _ ≤ _; omega)]
  dsimp only
  exact List.map_congr_left fun i _ => by rw [Nat.zero_add]

/-- C9 witness: after a further write to table x, the scan built on
`c2St` still yields only the construction-time buffered row d. -/
theorem c9_scan_snapshot_witness :
    c2St.tx = some c2Tx ∧ scan c2St "x" = .ok c2It ∧
    nextN (applyWrites [("x", some rowA)] c2St).store c2It.unflushedRowsLen c2It =
      (List.range c2It.unflushedRowsLen).map
        (fun i => .ok (((c2Tx.unflushedData "x").getD (fun _ => none)) i)) :=
  ⟨rfl, rfl, (c9_scan_snapshot c2St c2Tx "x" c2It [("x", some rowA)] rfl rfl).1⟩

/-! Decimal rendering and parsing of log-key ids. -/

theorem charToDigit_digitChar (d : Nat) (h : d < 10) : charToDigit (digitChar d) = d := by
  interval_cases d <;> rfl

theorem isDigit_digitChar (d : Nat) (h : d < 10) : (digitChar d).isDigit = true := by
  interval_cases d <;> rfl

theorem parseChars_concat (l : List Char) (c : Char) :
    parseChars (l ++ [c]) = 10 * parseChars l + charToDigit c := by
  simp [parseChars, List.foldl_append]

theorem renderNatAux_ok (f : Nat) :
    ∀ n, n ≤ f →
      parseChars (renderNatAux (f + 1) n) = n ∧
      renderNatAux (f + 1) n ≠ [] ∧
      ∀ c ∈ renderNatAux (f + 1) n, c.isDigit = true := by
  induction f with
  | zero =>
    intro n hn
    have h0 : n = 0 := by omega
    subst h0
    exact ⟨rfl, by simp [renderNatAux], by simp [renderNatAux]; rfl⟩
  | succ f ih =>
    intro n hn
    by_cases h10 : n < 10
    · refine ⟨?_, ?_, ?_⟩
      · simp only [renderNatAux, if_pos h10, parseChars, List.foldl_cons, List.foldl_nil]
        rw [charToDigit_digitChar n h10]
        omega
      · simp [renderNatAux, if_pos h10]
      · simp only [renderNatAux, if_pos h10, List.mem_singleton]
        rintro c rfl
        exact isDigit_digitChar n h10
    · have hrec : n / 10 ≤ f := by
        have : n / 10 < n := Nat.div_lt_self (by omega) (by omega)
        omega
      obtain ⟨hparse, hne, hdig⟩ := ih (n / 10) hrec
      have hunf : renderNatAux (f + 1 + 1) n =
          renderNatAux (f + 1) (n / 10) ++ [digitChar (n % 10)] := by
        show (if n < 10 then [digitChar n]
          else renderNatAux (f + 1) (n / 10) ++ [digitChar (n % 10)]) = _
        rw [if_neg h10]
      refine ⟨?_, ?_, ?_⟩
      · rw [hunf, parseChars_concat, hparse, charToDigit_digitChar _ (Nat.mod_lt n (by omega))]
        omega
      · rw [hunf]; simp
      · rw [hunf]
        intro c hc
        rcases List.mem_append.mp hc with hc' | hc'
        · exact hdig c hc'
        · rw [List.mem_singleton.mp hc']
          exact isDigit_digitChar _ (Nat.mod_lt n (by omega))

theorem renderNat_parse (n : Nat) : parseChars (renderNat n) = n :=
  (renderNatAux_ok n n (Nat.le_refl n)).1

theorem renderNat_ne_nil (n : Nat) : renderNat n ≠ [] :=
  (renderNatAux_ok n n (Nat.le_refl n)).2.1

theorem renderNat_digits (n : Nat) : ∀ c ∈ renderNat n, c.isDigit = true :=
  (renderNatAux_ok n n (Nat.le_refl n)).2.2

theorem foldl_parse_replicate_zero (k : Nat) :
    List.foldl (fun a c => 10 * a + charToDigit c) 0 (List.replicate k '0') = 0 := by
  induction k with
  | zero => rfl
  | succ k ih => simpa [List.replicate_succ] using ih

theorem parseChars_replicate_zero (k : Nat) (l : List Char) :
    parseChars (List.replicate k '0' ++ l) = parseChars l := by
  simp [parseChars, List.foldl_append, foldl_parse_replicate_zero]

theorem isEmpty_append_cons {α : Type _} (l : List α) (c : α) (r : List α) :
    (l ++ c :: r).isEmpty = false := by
  cases l <;> rfl

theorem all_isDigit_replicate_zero (k : Nat) :
    (List.replicate k '0').all Char.isDigit = true := by
  induction k with
  | zero => rfl
  | succ k ih => simp [List.replicate_succ, ih]

/-- `strconv.Atoi` inverts the `%020d` rendering. -/
theorem atoi_pad20 (n : Nat) : atoi (pad20 n) = .ok n := by
  have hdata : (pad20 n).data = List.replicate (20 - (renderNat n).length) '0' ++ renderNat n := rfl
  have hne := renderNat_ne_nil n
  cases hrn : renderNat n with
  | nil => exact absurd hrn hne
  | cons c rest =>
    have hemp : (pad20 n).data.isEmpty = false := by
      rw [hdata, hrn]; exact isEmpty_append_cons _ c rest
    have hall : (pad20 n).data.all Char.isDigit = true := by
      rw [hdata, List.all_append, all_isDigit_replicate_zero]
      simp only [Bool.true_and]
      rw [List.all_eq_true]
      exact renderNat_digits n
    simp only [atoi, hemp, Bool.false_eq_true, if_false, hall, if_true]
    rw [hdata, parseChars_replicate_zero, renderNat_parse]

theorem data_append (s t : String) : (s ++ t).data = s.data ++ t.data := by
  obtain ⟨sl⟩ := s
  obtain ⟨tl⟩ := t
  rfl

theorem dropChars_logKey (n : Nat) : dropChars 5 (logKey n) = pad20 n := rfl

theorem logKey_inj (a b : Nat) (h : logKey a = logKey b) : a = b := by
  have h2 := congrArg (fun s => atoi (dropChars 5 s)) h
  simp only [dropChars_logKey, atoi_pad20] at h2
  injection h2

theorem isPrefixOf_append_self (l r : List Char) : l.isPrefixOf (l ++ r) = true := by
  induction l with
  | nil => simp [List.isPrefixOf]
  | cons c rest ih => simp [List.isPrefixOf, ih]

theorem hasPre_logKey (n : Nat) : hasPre (logKey n) "_log_" = true := by
  simp only [hasPre, logKey, data_append]
  exact isPrefixOf_append_self _ _

theorem hasPre_table_log (t u : String) :
    hasPre ("_table_" ++ t ++ "_" ++ u) "_log_" = false := by
  obtain ⟨tl⟩ := t
  obtain ⟨ul⟩ := u
  rfl

/-! Store lemmas: lookups and prefix listings under appends. -/

theorem slookup_append (k : String) (l l' : List (String × Blob)) :
    slookup k (l ++ l') =
      match slookup k l with
      | some b => some b
      | none => slookup k l' := by
  induction l with
  | nil => simp [slookup]
  | cons p rest ih =>
    obtain ⟨k', b'⟩ := p
    simp only [List.cons_append, slookup]
    split <;> simp [ih]

theorem slookup_some_mem_keys (k : String) (l : List (String × Blob)) (b : Blob)
    (h : slookup k l = some b) : k ∈ l.map Prod.fst := by
  induction l with
  | nil => simp [slookup] at h
  | cons p rest ih =>
    obtain ⟨k', b'⟩ := p
    simp only [slookup] at h
    split at h
    · rename_i hk
      subst hk
      simp
    · simp only [List.map_cons, List.mem_cons]
      exact Or.inr (ih h)

theorem lookup_preserve_append (entries : List (String × Blob)) (k k' : String) (b b' : Blob)
    (h : slookup k' entries = some b') : slookup k' (entries ++ [(k, b)]) = some b' := by
  rw [slookup_append, h]

theorem lookup_fresh_append (entries : List (String × Blob)) (k : String) (b : Blob)
    (h : slookup k entries = none) : slookup k (entries ++ [(k, b)]) = some b := by
  rw [slookup_append, h]
  simp [slookup]

theorem listPre_append_one (entries : List (String × Blob)) (k : String) (b : Blob) (p : String) :
    (⟨entries ++ [(k, b)]⟩ : Store).listPre p =
      (⟨entries⟩ : Store).listPre p ++ (if hasPre k p then [k] else []) := by
  simp only [Store.listPre, List.map_append, List.map_cons, List.map_nil, List.filter_append]
  congr 1
  simp only [List.filter]
  cases hasPre k p <;> simp

theorem putIfAbsent_ok (s : Store) (k : String) (b : Blob) (s' : Store)
    (h : s.putIfAbsent k b = .ok s') :
    s.lookup k = none ∧ s' = ⟨s.entries ++ [(k, b)]⟩ := by
  unfold Store.putIfAbsent at h
  cases hlk : s.lookup k with
  | some b' => rw [hlk] at h; nomatch h
  | none =>
    rw [hlk] at h
    injection h with h'
    exact ⟨rfl, h'.symm⟩

theorem getTxActions_mono (st st' : Store) (name : String) (acts : List (String × List Action))
    (hmono : ∀ k b, st.lookup k = some b → st'.lookup k = some b)
    (h : getTxActions st name = .ok acts) : getTxActions st' name = .ok acts := by
  unfold getTxActions Store.read at h ⊢
  cases hlk : st.lookup name with
  | none => rw [hlk] at h; nomatch h
  | some blob =>
    rw [hlk] at h
    rw [hmono name blob hlk]
    exact h

/-! Well-formedness of a store holding logs `1..n`, and the transaction
invariant carried between `newTx` and `commitTx`. -/

/-- Every recorded action has a populated arm (so the fold in `newTx`
never hits the panic). -/
def ActsEntriesWF (acts : List (String × List Action)) : Prop :=
  ∀ p ∈ acts, ∀ a ∈ p.2, a.AddDataobject.isSome = true ∨ a.ChangeMetadata.isSome = true

/-- The store's `_log_` keys are exactly ids 1..n (in ascending creation
order, as the `objectStorage` listing contract requires), and each log
decodes to a well-formed manifest. -/
def StoreWF (st : Store) (n : Nat) : Prop :=
  st.listPre "_log_" = (List.range' 1 n).map logKey ∧
  ∀ name ∈ st.listPre "_log_",
    ∃ acts, getTxActions st name = .ok acts ∧ ActsEntriesWF acts

theorem mem_asetList {α : Type _} (k : String) (v : α) (m : List (String × α))
    (p : String × α) (h : p ∈ asetList k v m) : p = (k, v) ∨ p ∈ m := by
  induction m with
  | nil => simpa [asetList] using h
  | cons q rest ih =>
    obtain ⟨k', v'⟩ := q
    simp only [asetList] at h
    split at h
    · rcases List.mem_cons.mp h with h' | h'
      · exact Or.inl h'
      · exact Or.inr (List.mem_cons_of_mem _ h')
    · rcases List.mem_cons.mp h with h' | h'
      · exact Or.inr (h' ▸ List.mem_cons_self _ _)
      · rcases ih h' with h'' | h''
        · exact Or.inl h''
        · exact Or.inr (List.mem_cons_of_mem _ h'')

theorem apush_WF (k : String) (a : Action) (m : List (String × List Action))
    (hm : ActsEntriesWF m)
    (ha : a.AddDataobject.isSome = true ∨ a.ChangeMetadata.isSome = true) :
    ActsEntriesWF (apush k a m) := by
  intro p hp a' ha'
  rcases mem_asetList _ _ _ _ hp with hp' | hp'
  · subst hp'
    rcases List.mem_append.mp ha' with h1 | h1
    · cases hl : alookup k m with
      | none => rw [hl] at h1; simp at h1
      | some l =>
        rw [hl] at h1
        exact hm (k, l) (alookup_mem k m l hl) a' h1
    · rw [List.mem_singleton.mp h1]
      exact ha
  · exact hm p hp' a' ha'

theorem StoreWF_append (st : Store) (n : Nat) (k : String) (b : Blob)
    (hwf : StoreWF st n) (hk : hasPre k "_log_" = false) :
    StoreWF (⟨st.entries ++ [(k, b)]⟩ : Store) n := by
  obtain ⟨hlist, hdec⟩ := hwf
  have hl2 : (⟨st.entries ++ [(k, b)]⟩ : Store).listPre "_log_" = st.listPre "_log_" := by
    rw [listPre_append_one, hk]
    simp
  refine ⟨hl2.trans hlist, ?_⟩
  intro name hname
  rw [hl2] at hname
  obtain ⟨acts, hga, hwfa⟩ := hdec name hname
  exact ⟨acts,
    getTxActions_mono st _ name acts
      (fun k' b' hb' => lookup_preserve_append st.entries k k' b b' hb') hga,
    hwfa⟩

/-! Wire round trip for manifests: decoding the marshalled transaction
recovers exactly the `Actions` association. -/

theorem decodeStrList_marshal (cols : List String) :
    decodeStrList (cols.map .jstr) = .ok cols := by
  induction cols with
  | nil => rfl
  | cons c rest ih => simp [decodeStrList, ih]

theorem decodeDA_marshal (d : DataobjectAction) :
    decodeDAJson (marshalDAJson d) = .ok d := rfl

theorem decodeCM_marshal (c : ChangeMetadataAction) :
    decodeCMJson (marshalCMJson c) = .ok c := by
  simp [marshalCMJson, decodeCMJson, jlookup, decodeStrList_marshal]

theorem decodeAction_marshal (a : Action) :
    decodeActionJson (marshalActionJson a) = .ok a := by
  obtain ⟨add, cm⟩ := a
  cases add <;> cases cm <;>
    simp [marshalActionJson, marshalDAJson, marshalCMJson, decodeActionJson, jlookup,
      decodeOptArm, decodeDAJson, decodeCMJson, decodeStrList_marshal]

theorem decodeActionList_marshal (l : List Action) :
    decodeActionList (l.map marshalActionJson) = .ok l := by
  induction l with
  | nil => rfl
  | cons a rest ih => simp [decodeActionList, decodeAction_marshal, ih]

theorem decodeActionsEntries_marshal (acts : List (String × List Action)) :
    decodeActionsEntries (acts.map (fun p => (p.1, .jarr (p.2.map marshalActionJson)))) =
      .ok acts := by
  induction acts with
  | nil => rfl
  | cons p rest ih => simp [decodeActionsEntries, decodeActionList_marshal, ih]

theorem decodeTx_marshal (acts : List (String × List Action)) :
    decodeTxActions (marshalTxJson acts) = .ok acts := by
  simp [marshalTxJson, decodeTxActions, jlookup, decodeActionsEntries_marshal]

/-- C5 (amended).  The persisted manifest is a JSON object with exactly
the single key `Actions` (neither `id`, `tables`, `previousActions` nor
the unflushed buffers reach disk — encoding/json emits exported fields
only, and `Actions` is `transaction`'s sole exported field), and
decoding it recovers the transaction's `Actions` exactly. -/
theorem c5_amended (acts : List (String × List Action)) :
    jsonKeys (marshalTxJson acts) = ["Actions"] ∧
    decodeTxActions (marshalTxJson acts) = .ok acts :=
  ⟨rfl, decodeTx_marshal acts⟩

/-! `newTx` succeeds on a well-formed store and assigns id `n + 1`. -/

theorem foldActions_ok (table : String) (acts : List Action)
    (h : ∀ a ∈ acts, a.AddDataobject.isSome = true ∨ a.ChangeMetadata.isSome = true) :
    ∀ prev tbls, ∃ pt, foldActions table acts prev tbls = .ok pt := by
  induction acts with
  | nil => intro prev tbls; exact ⟨_, rfl⟩
  | cons a rest ih =>
    intro prev tbls
    have ha := h a (List.mem_cons_self _ _)
    have hrest := fun a' h' => h a' (List.mem_cons_of_mem _ h')
    cases hd : a.AddDataobject with
    | some d =>
      simp only [foldActions, hd]
      exact ih hrest _ _
    | none =>
      cases hc : a.ChangeMetadata with
      | some c =>
        simp only [foldActions, hd, hc]
        exact ih hrest _ _
      | none =>
        rw [hd, hc] at ha
        simp at ha

theorem foldManifest_ok (acts : List (String × List Action)) (h : ActsEntriesWF acts) :
    ∀ prev tbls, ∃ pt, foldManifest acts prev tbls = .ok pt := by
  induction acts with
  | nil => intro prev tbls; exact ⟨_, rfl⟩
  | cons p rest ih =>
    intro prev tbls
    obtain ⟨table, al⟩ := p
    obtain ⟨⟨prev', tbls'⟩, hfa⟩ :=
      foldActions_ok table al (h (table, al) (List.mem_cons_self _ _)) prev tbls
    simp only [foldManifest, hfa]
    exact ih (fun q hq => h q (List.mem_cons_of_mem _ hq)) prev' tbls'

theorem foldLogs_ok (store : Store) (names : List String)
    (h : ∀ name ∈ names, ∃ acts, getTxActions store name = .ok acts ∧ ActsEntriesWF acts) :
    ∀ prev tbls, ∃ pt, foldLogs store names prev tbls = .ok pt := by
  induction names with
  | nil => intro prev tbls; exact ⟨_, rfl⟩
  | cons name rest ih =>
    intro prev tbls
    obtain ⟨acts, hga, hwf⟩ := h name (List.mem_cons_self _ _)
    obtain ⟨⟨prev', tbls'⟩, hfm⟩ := foldManifest_ok acts hwf prev tbls
    simp only [foldLogs, hga, hfm]
    exact ih (fun q hq => h q (List.mem_cons_of_mem _ hq)) prev' tbls'

theorem range1_concat (n : Nat) : List.range' 1 (n + 1) = List.range' 1 n ++ [n + 1] := by
  rw [List.range'_concat]
  simp [Nat.add_comm]

theorem getLast_map_logKey (n : Nat) (h : 0 < n) :
    ((List.range' 1 n).map logKey).getLast? = some (logKey n) := by
  cases n with
  | zero => omega
  | succ m =>
    rw [range1_concat, List.map_append]
    simp [List.getLast?_concat]

theorem newTx_wf (n : Nat) (s : St) (hwf : StoreWF s.store n) (htx : s.tx = none) :
    (newTx s).1 = none ∧
    ∃ prev tbls, (newTx s).2 =
      { s with
        tx := some
          { id := n + 1
            previousActions := prev
            Actions := []
            tables := tbls
            unflushedData := fun _ => none
            unflushedDataPointer := fun _ => none } } := by
  obtain ⟨hlist, hdec⟩ := hwf
  have hlast : (match (s.store.listPre "_log_").getLast? with
      | none => (.ok 0 : Except Err Nat)
      | some k => atoi (dropChars 5 k)) = .ok n := by
    cases n with
    | zero => rw [hlist]; rfl
    | succ m =>
      rw [hlist, getLast_map_logKey (m + 1) (by omega)]
      simp [dropChars_logKey, atoi_pad20]
  obtain ⟨⟨prev, tbls⟩, hfold⟩ :=
    foldLogs_ok s.store (s.store.listPre "_log_") hdec (fun _ => []) []
  refine ⟨?_, prev, tbls, ?_⟩ <;> simp only [newTx, htx, hlast, hfold]

/-- The invariant carried by a client between `newTx` on a store with
logs `1..n` and its commit: the transaction is live with id `n + 1` and
well-formed pending actions, and the store keeps logs `1..n`. -/
def RInv (n : Nat) (s : St) : Prop :=
  (∃ tx, s.tx = some tx ∧ tx.id = n + 1 ∧ ActsEntriesWF tx.Actions) ∧ StoreWF s.store n

theorem flushRows_RInv (n : Nat) (s : St) (t : String) (h : RInv n s) :
    RInv n (flushRows s t).2 := by
  obtain ⟨⟨tx, htx, hid, hwf⟩, hswf⟩ := h
  rcases flushRows_characterize s t tx htx with ⟨e, hc⟩ | hc | ⟨blob, hnone, hc⟩
  · rw [hc]; exact ⟨⟨tx, htx, hid, hwf⟩, hswf⟩
  · rw [hc]; exact ⟨⟨tx, htx, hid, hwf⟩, hswf⟩
  · rw [hc]
    refine ⟨⟨_, rfl, hid, apush_WF _ _ _ hwf (Or.inl rfl)⟩, ?_⟩
    exact StoreWF_append s.store n _ blob hswf (hasPre_table_log t (s.uuidGen s.uuidCtr))

theorem createTable_RInv (n : Nat) (s : St) (t : String) (cols : List String)
    (h : RInv n s) : RInv n (createTable s t cols).2 := by
  obtain ⟨⟨tx, htx, hid, hwf⟩, hswf⟩ := h
  cases hl : alookup t tx.tables with
  | some _ =>
    simp only [createTable, htx, hl]
    exact ⟨⟨tx, htx, hid, hwf⟩, hswf⟩
  | none =>
    simp only [createTable, htx, hl]
    exact ⟨⟨_, rfl, hid, apush_WF _ _ _ hwf (Or.inr rfl)⟩, hswf⟩

theorem writeRow_RInv (n : Nat) (s : St) (t : String) (row : Slot)
    (h : RInv n s) : RInv n (writeRow s t row).2 := by
  obtain ⟨⟨tx, htx, hid, hwf⟩, hswf⟩ := h
  cases htab : alookup t tx.tables with
  | none =>
    simp only [writeRow, htx, htab]
    exact ⟨⟨tx, htx, hid, hwf⟩, hswf⟩
  | some cols =>
    have hs₁ : ∀ tx₁ : Tx, tx₁.id = n + 1 → ActsEntriesWF tx₁.Actions →
        RInv n { s with tx := some tx₁ } :=
      fun tx₁ hid₁ hwf₁ => ⟨⟨tx₁, rfl, hid₁, hwf₁⟩, hswf⟩
    have hfin : ∀ s₂ : St, RInv n s₂ →
        RInv n (match s₂.tx with
          | none => ((some .noTx : Option Err), s₂)
          | some tx₂ =>
            (none,
              { s₂ with
                tx := some
                  { tx₂ with
                    unflushedData :=
                      fun k =>
                        if k = t then
                          some (fun i =>
                            if i = (if (tx.unflushedDataPointer t).getD 0 = DATAOBJECT_SIZE then 0
                              else (tx.unflushedDataPointer t).getD 0) then row
                            else ((tx₂.unflushedData t).getD (fun _ => none)) i)
                        else tx₂.unflushedData k
                    unflushedDataPointer :=
                      fun k =>
                        if k = t then some ((tx₂.unflushedDataPointer t).getD 0 + 1)
                        else tx₂.unflushedDataPointer k } })).2 := by
      intro s₂ h₂
      obtain ⟨⟨tx₂, htx₂, hid₂, hwf₂⟩, hswf₂⟩ := h₂
      rw [htx₂]
      exact ⟨⟨_, rfl, hid₂, hwf₂⟩, hswf₂⟩
    simp only [writeRow, htx, htab]
    cases hp : tx.unflushedDataPointer t with
    | none =>
      simp only [hp, Option.getD_none]
      by_cases hfull : (0 : Nat) = DATAOBJECT_SIZE
      · exact absurd hfull (by decide)
      · simp only [if_neg hfull]
        have h₁ := hs₁ { tx with
            unflushedDataPointer := fun k => if k = t then some 0 else tx.unflushedDataPointer k
            unflushedData :=
              fun k => if k = t then some (fun _ => none) else tx.unflushedData k }
          hid hwf
        have := hfin _ h₁
        simp only [hp, Option.getD_none, if_neg hfull] at this
        exact this
    | some p =>
      simp only [hp, Option.getD_some]
      have h₁ := hs₁ tx hid hwf
      by_cases hfull : p = DATAOBJECT_SIZE
      · simp only [if_pos hfull]
        have h₂ := flushRows_RInv n { s with tx := some tx } t h₁
        have := hfin _ h₂
        simp only [hp, Option.getD_some, if_pos hfull] at this
        exact this
      · simp only [if_neg hfull]
        have := hfin _ h₁
        simp only [hp, Option.getD_some, if_neg hfull] at this
        simp only [hp, Option.getD_some]
        exact this

theorem flushAll_RInv (n : Nat) (l : List String) (s : St) (h : RInv n s) :
    RInv n (flushAll l s).2 := by
  induction l generalizing s with
  | nil => exact h
  | cons t rest ih =>
    cases hfr : flushRows s t with
    | mk e? s' =>
      have h' : RInv n s' := by
        have := flushRows_RInv n s t h
        rw [hfr] at this
        exact this
      cases e? with
      | some e => simp only [flushAll, hfr]; exact h'
      | none => simp only [flushAll, hfr]; exact ih s' h'

theorem runOp_RInv (n : Nat) (s : St) (op : TableOp) (h : RInv n s) :
    RInv n (runOp s op) := by
  cases op with
  | create t cols => exact createTable_RInv n s t cols h
  | write t r => exact writeRow_RInv n s t r h
  | flush t => exact flushRows_RInv n s t h

theorem runOps_RInv (n : Nat) (ops : List TableOp) (s : St) (h : RInv n s) :
    RInv n (runOps ops s) := by
  induction ops generalizing s with
  | nil => exact h
  | cons op rest ih => exact ih _ (runOp_RInv n s op h)

/-- One commit round on a store with logs `1..n`: either no manifest is
written (flush error or read-only) and the log set is unchanged, or the
commit returns ok having created exactly `_log_<n+1>`. -/
theorem commit_step (n : Nat) (s : St) (hinv : RInv n s) :
    StoreWF (commitTx s).2.store n ∨
    ((commitTx s).1 = none ∧ StoreWF (commitTx s).2.store (n + 1) ∧
      (commitTx s).2.store.lookup (logKey (n + 1)) ≠ none) := by
  obtain ⟨⟨tx, htx, hid, hwf⟩, hswf⟩ := hinv
  have hfl := flushAll_RInv n (tx.tables.map Prod.fst) s ⟨⟨tx, htx, hid, hwf⟩, hswf⟩
  cases hflr : flushAll (tx.tables.map Prod.fst) s with
  | mk e? s₁ =>
    rw [hflr] at hfl
    obtain ⟨⟨tx₁, htx₁, hid₁, hwf₁⟩, hswf₁⟩ := hfl
    have htx₁' : s₁.tx = some tx₁ := htx₁
    cases e? with
    | some e =>
      left
      simp only [commitTx, htx, hflr]
      exact hswf₁
    | none =>
      simp only [commitTx, htx, hflr, htx₁', Option.getD_some]
      by_cases hw : (tx₁.Actions.any fun p => !p.2.isEmpty) = true
      · simp only [hw, Bool.not_true, Bool.false_eq_true, if_false]
        have hnone : s₁.store.lookup (logKey (n + 1)) = none := by
          cases hlk : s₁.store.lookup (logKey (n + 1)) with
          | none => rfl
          | some b =>
            exfalso
            have hmem : logKey (n + 1) ∈ s₁.store.listPre "_log_" :=
              List.mem_filter.mpr ⟨slookup_some_mem_keys _ _ _ hlk, hasPre_logKey (n + 1)⟩
            rw [hswf₁.1] at hmem
            obtain ⟨m, hm, hkey⟩ := List.mem_map.mp hmem
            have hmn := logKey_inj _ _ hkey
            rw [List.mem_range'_1] at hm
            omega
        rw [hid₁]
        simp only [Store.putIfAbsent]
        rw [show ("_log_" ++ pad20 (n + 1)) = logKey (n + 1) from rfl, hnone]
        right
        refine ⟨rfl, ⟨?_, ?_⟩, ?_⟩
        · rw [listPre_append_one, hasPre_logKey]
          simp only [if_true]
          have : (⟨s₁.store.entries⟩ : Store) = s₁.store := rfl
          rw [this, hswf₁.1, range1_concat, List.map_append]
          simp
        · intro name hname
          rw [listPre_append_one, hasPre_logKey] at hname
          simp only [if_true] at hname
          have heta : (⟨s₁.store.entries⟩ : Store) = s₁.store := rfl
          rw [heta] at hname
          rcases List.mem_append.mp hname with hold | hnew
          · obtain ⟨acts, hga, hwfa⟩ := hswf₁.2 name hold
            exact ⟨acts,
              getTxActions_mono s₁.store _ name acts
                (fun k b hb => lookup_preserve_append s₁.store.entries _ k _ b hb) hga,
              hwfa⟩
          · rw [List.mem_singleton] at hnew
            subst hnew
            refine ⟨tx₁.Actions, ?_, hwf₁⟩
            unfold getTxActions Store.read
            rw [show (⟨s₁.store.entries ++
                [(logKey (n + 1),
                  Blob.jsonBlob (marshalTxJson ({ tx₁ with previousActions := fun _ => [] } : Tx).Actions))]⟩ :
                  Store).lookup (logKey (n + 1)) =
                some (Blob.jsonBlob (marshalTxJson ({ tx₁ with previousActions := fun _ => [] } : Tx).Actions)) from
              lookup_fresh_append _ _ _ hnone]
            exact decodeTx_marshal _
        · rw [show ((⟨s₁.store.entries ++
              [(logKey (n + 1),
                Blob.jsonBlob (marshalTxJson ({ tx₁ with previousActions := fun _ => [] } : Tx).Actions))]⟩ :
                Store)).lookup (logKey (n + 1)) =
              some (Blob.jsonBlob (marshalTxJson ({ tx₁ with previousActions := fun _ => [] } : Tx).Actions)) from
            lookup_fresh_append _ _ _ hnone]
          simp
      · left
        have hw' : (tx₁.Actions.any fun p => !p.2.isEmpty) = false := by
          revert hw
          cases tx₁.Actions.any fun p => !p.2.isEmpty <;> simp
        simp only [hw', Bool.not_false, if_true]
        exact hswf₁

/-- C7 (confirmed).  On the empty store the log set is `1..0` (empty);
and for every store with logs `1..n`, `newTx` succeeds assigning the new
transaction id `n + 1` = max(existing)+1 (= 1 when none exist), and
whatever table operations the transaction performs, its commit either
writes no manifest (log set unchanged, ids still `1..n`) or returns ok
having created exactly the key `_log_<n+1>` — so across any sequence of
successful manifest-writing commits the log ids are the contiguous
ascending integers starting at 1. -/
theorem c7_log_ids :
    StoreWF (⟨[]⟩ : Store) 0 ∧
    ∀ (n : Nat) (s : St), StoreWF s.store n → s.tx = none →
      (newTx s).1 = none ∧
      (newTx s).2.tx.map Tx.id = some (n + 1) ∧
      ∀ ops : List TableOp,
        StoreWF (commitTx (runOps ops (newTx s).2)).2.store n ∨
        ((commitTx (runOps ops (newTx s).2)).1 = none ∧
          StoreWF (commitTx (runOps ops (newTx s).2)).2.store (n + 1) ∧
          (commitTx (runOps ops (newTx s).2)).2.store.lookup (logKey (n + 1)) ≠ none) := by
  constructor
  · exact ⟨rfl, fun name h => absurd h (List.not_mem_nil _)⟩
  · intro n s hwf htx
    obtain ⟨hok, prev, tbls, hstate⟩ := newTx_wf n s hwf htx
    refine ⟨hok, ?_, ?_⟩
    · rw [hstate]; rfl
    · intro ops
      have hinv : RInv n (newTx s).2 := by
        rw [hstate]
        exact ⟨⟨_, rfl, rfl, fun p hp => absurd hp (List.not_mem_nil _)⟩, hwf⟩
      exact commit_step n _ (runOps_RInv n ops _ hinv)

/-- C7 witness: the empty store, one round creating table x, which
commits as log 1. -/
theorem c7_log_ids_witness :
    StoreWF st0.store 0 ∧ (newTx st0).1 = none ∧ (newTx st0).2.tx.map Tx.id = some 1 ∧
    (StoreWF (commitTx (runOps [.create "x" ["a"]] (newTx st0).2)).2.store 0 ∨
      ((commitTx (runOps [.create "x" ["a"]] (newTx st0).2)).1 = none ∧
        StoreWF (commitTx (runOps [.create "x" ["a"]] (newTx st0).2)).2.store 1 ∧
        (commitTx (runOps [.create "x" ["a"]] (newTx st0).2)).2.store.lookup (logKey 1) ≠ none)) := by
  have hb : StoreWF st0.store 0 := c7_log_ids.1
  have h := c7_log_ids.2 0 st0 hb rfl
  exact ⟨hb, h.1, h.2.1, h.2.2 [.create "x" ["a"]]⟩

/-- The transaction created by `newTx` on the empty store. -/
def fresh1Tx : Tx :=
  { id := 1
    previousActions := fun _ => []
    Actions := []
    tables := []
    unflushedData := fun _ => none
    unflushedDataPointer := fun _ => none }

/-- C6 (confirmed).  If, after `commitTx`'s flush loop has flushed every
table, no table has a pending action in `Actions`, then every flush was
a no-op, `commitTx` returns ok with the state (and hence the store)
completely unchanged: no `putIfAbsent` happened, and no `_log_` key was
created. -/
theorem c6_read_only_commit (s : St) (tx₀ : Tx) (s₁ : St)
    (htx : s.tx = some tx₀)
    (hflush : flushAll (tx₀.tables.map Prod.fst) s = (none, s₁))
    (hempty : ∀ p ∈ (s₁.tx.getD tx₀).Actions, p.2 = []) :
    commitTx s = (none, s) ∧ s₁ = s := by
  obtain ⟨tx₁, htx₁⟩ := flushAll_tx (tx₀.tables.map Prod.fst) s tx₀ htx
  rw [hflush] at htx₁
  have htx₁' : s₁.tx = some tx₁ := htx₁
  have hemp0 : ∀ k, actLen s₁ k = 0 := by
    intro k
    simp only [actLen, htx₁']
    cases hl : alookup k tx₁.Actions with
    | none => simp
    | some v =>
      have hmem : (k, v) ∈ tx₁.Actions := alookup_mem k _ v hl
      have hv := hempty (k, v) (by rw [htx₁']; exact hmem)
      simpa using hv
  have hs : s₁ = s := flushAll_ok_all_empty _ s s₁ tx₀ htx hflush hemp0
  subst hs
  refine ⟨?_, rfl⟩
  have hempty' : ∀ p ∈ tx₀.Actions, p.2 = [] := by
    intro p hp
    exact hempty p (by rw [htx]; exact hp)
  have hw : (tx₀.Actions.any fun p => !p.2.isEmpty) = false := by
    simp only [List.any_eq_false]
    intro p hp
    simp [hempty' p hp]
  simp [commitTx, htx, hflush, hw]

/-- C6 witness: a freshly begun transaction on the empty store commits
read-only, leaving the state untouched. -/
theorem c6_read_only_commit_witness :
    (newTx st0).2.tx = some fresh1Tx ∧ commitTx (newTx st0).2 = (none, (newTx st0).2) :=
  ⟨rfl,
    (c6_read_only_commit (newTx st0).2 fresh1Tx (newTx st0).2 rfl rfl
      (fun p hp => (List.not_mem_nil p hp).elim)).1⟩

/-- C4 (amended).  For every live transaction, `commitTx` consumes the
transaction exactly when it reaches the manifest `putIfAbsent`: the
client's `tx` is nil afterwards if and only if the flush loop succeeded
and some table had a pending action (so the manifest write was
attempted — succeeding or conflicting).  In particular, a read-only ok
and a flush error both leave the transaction set. -/
theorem c4_amended (s : St) (tx₀ : Tx) (htx : s.tx = some tx₀) :
    (commitTx s).2.tx = none ↔
      ((flushAll (tx₀.tables.map Prod.fst) s).1 = none ∧
        (((flushAll (tx₀.tables.map Prod.fst) s).2.tx.getD tx₀).Actions.any
          (fun p => !p.2.isEmpty)) = true) := by
  obtain ⟨tx₁, htx₁⟩ := flushAll_tx (tx₀.tables.map Prod.fst) s tx₀ htx
  cases hfl : flushAll (tx₀.tables.map Prod.fst) s with
  | mk e? s₁ =>
    rw [hfl] at htx₁
    have htx₁' : s₁.tx = some tx₁ := htx₁
    cases e? with
    | some e => simp [commitTx, htx, hfl, htx₁']
    | none =>
      simp only [commitTx, htx, hfl, htx₁', Option.getD_some]
      by_cases hw : (tx₁.Actions.any fun p => !p.2.isEmpty) = true
      · rw [hw]
        cases hput : s₁.store.putIfAbsent ("_log_" ++ pad20 tx₁.id)
            (.jsonBlob (marshalTxJson ({ tx₁ with previousActions := fun _ => [] } : Tx).Actions)) with
        | error e => simp [hput]
        | ok store' => simp [hput]
      · have hw' : (tx₁.Actions.any fun p => !p.2.isEmpty) = false := by
          revert hw; cases tx₁.Actions.any fun p => !p.2.isEmpty <;> simp
        simp [hw', htx₁']

/-- C4 amended witness: the freshly begun transaction on the empty store
(read-only commit case, where the manifest write is not attempted). -/
theorem c4_amended_witness :
    (newTx st0).2.tx = some fresh1Tx ∧
    ((commitTx (newTx st0).2).2.tx = none ↔
      ((flushAll (fresh1Tx.tables.map Prod.fst) (newTx st0).2).1 = none ∧
        (((flushAll (fresh1Tx.tables.map Prod.fst) (newTx st0).2).2.tx.getD fresh1Tx).Actions.any
          (fun p => !p.2.isEmpty)) = true)) :=
  ⟨rfl, c4_amended (newTx st0).2 fresh1Tx rfl⟩

/-- A transaction holding one unflushed row for table x. -/
def c8Tx : Tx :=
  { id := 1
    previousActions := fun _ => []
    Actions := []
    tables := [("x", ["col"])]
    unflushedData := fun k => if k = "x" then some (fun i => if i = 0 then some rowA else none) else none
    unflushedDataPointer := fun k => if k = "x" then some 1 else none }

/-- A world in which the next uuid draw collides with an existing key,
so the flush's `putIfAbsent` fails. -/
def c8St : St :=
  { tx := some c8Tx
    store := ⟨[("_table_x_0", .jsonBlob .jnull)]⟩
    uuidGen := demoGen
    uuidCtr := 0 }

/-- C8 (confirmed).  When the store's `putIfAbsent` fails, `flushRows`
returns the error with the whole transaction — unflushed buffer, its
length counter, and `Actions[table]` — and the store unchanged; only the
uuid draw was consumed, so the caller may retry the flush.
(Serialization of the data object is total on these values, so the
store write is the only failure point.) -/
theorem c8_flush_failure_atomic (s : St) (t : String) (tx : Tx) (p : Nat) (b : Blob)
    (htx : s.tx = some tx) (hp : tx.unflushedDataPointer t = some p) (hp0 : ¬ p = 0)
    (hcol : s.store.lookup ("_table_" ++ t ++ "_" ++ s.uuidGen s.uuidCtr) = some b) :
    flushRows s t =
      (some (.alreadyExists ("_table_" ++ t ++ "_" ++ s.uuidGen s.uuidCtr)),
        { s with uuidCtr := s.uuidCtr + 1 }) ∧
    (flushRows s t).2.tx = some tx ∧
    (flushRows s t).2.store = s.store := by
  have h := flushRows_collision s t tx p b htx hp hp0 hcol
  exact ⟨h, by rw [h]; exact htx, by rw [h]⟩

/-- C8 witness: the concrete collision world `c8St`. -/
theorem c8_flush_failure_atomic_witness :
    c8St.tx = some c8Tx ∧ c8Tx.unflushedDataPointer "x" = some 1 ∧
    flushRows c8St "x" =
      (some (.alreadyExists ("_table_" ++ "x" ++ "_" ++ c8St.uuidGen c8St.uuidCtr)),
        { c8St with uuidCtr := c8St.uuidCtr + 1 }) ∧
    (flushRows c8St "x").2.tx = some c8Tx :=
  ⟨rfl, rfl,
    (c8_flush_failure_atomic c8St "x" c8Tx 1 (.jsonBlob .jnull) rfl rfl (by decide) rfl).1,
    (c8_flush_failure_atomic c8St "x" c8Tx 1 (.jsonBlob .jnull) rfl rfl (by decide) rfl).2.1⟩

/-- A transaction whose buffer for table x is exactly full. -/
def c10Tx : Tx :=
  { id := 1
    previousActions := fun _ => []
    Actions := []
    tables := [("x", ["col"])]
    unflushedData := fun k => if k = "x" then some (fun _ => some rowA) else none
    unflushedDataPointer := fun k => if k = "x" then some DATAOBJECT_SIZE else none }

/-- A world where the implicit flush inside `writeRow` will fail. -/
def c10St : St :=
  { tx := some c10Tx
    store := ⟨[("_table_x_0", .jsonBlob .jnull)]⟩
    uuidGen := demoGen
    uuidCtr := 0 }

/-- C10 (confirmed).  `writeRow` on a known table whose buffer is full
returns ok even though the implicit `flushRows` fails: the flush error
is discarded, the new row is stored at buffer index 0 (overwriting the
oldest unflushed row), and the length counter is incremented past
`DATAOBJECT_SIZE` to 65537, while the store is untouched. -/
theorem c10_writeRow_full_discards_flush_error (s : St) (t : String) (row : Slot)
    (tx : Tx) (cols : List String) (b : Blob)
    (htx : s.tx = some tx)
    (htab : alookup t tx.tables = some cols)
    (hp : tx.unflushedDataPointer t = some DATAOBJECT_SIZE)
    (hcol : s.store.lookup ("_table_" ++ t ++ "_" ++ s.uuidGen s.uuidCtr) = some b) :
    (writeRow s t row).1 = none ∧
    (writeRow s t row).2.store = s.store ∧
    ∃ tx', (writeRow s t row).2.tx = some tx' ∧
      ((tx'.unflushedData t).getD (fun _ => none)) 0 = row ∧
      tx'.unflushedDataPointer t = some (DATAOBJECT_SIZE + 1) := by
  have hflush := flushRows_collision { s with tx := some tx } t tx DATAOBJECT_SIZE b rfl hp
    (by decide) hcol
  simp only [writeRow, htx, htab, hp, Option.getD_some, if_pos rfl, hflush]
  refine ⟨rfl, rfl, _, rfl, ?_, ?_⟩
  · simp
  · simp [hp]

/-- C10 witness: the concrete full-buffer collision world `c10St`. -/
theorem c10_writeRow_full_discards_flush_error_witness :
    c10St.tx = some c10Tx ∧ c10Tx.unflushedDataPointer "x" = some DATAOBJECT_SIZE ∧
    (writeRow c10St "x" (some rowB)).1 = none ∧
    (writeRow c10St "x" (some rowB)).2.store = c10St.store ∧
    ∃ tx', (writeRow c10St "x" (some rowB)).2.tx = some tx' ∧
      ((tx'.unflushedData "x").getD (fun _ => none)) 0 = some rowB ∧
      tx'.unflushedDataPointer "x" = some (DATAOBJECT_SIZE + 1) := by
  have h := c10_writeRow_full_discards_flush_error c10St "x" (some rowB) c10Tx ["col"]
    (.jsonBlob .jnull) rfl rfl rfl rfl
  exact ⟨rfl, rfl, h.1, h.2.1, h.2.2⟩

/-- C5 (counterexample).  Commit a transaction that created table x on
the empty store: the manifest persisted at the id-1 log key is a JSON
object whose only key is `Actions` — `id` and `tables` are unexported
fields of `transaction` and do not reach disk, contrary to the claim
that exactly id, Actions and tables are persisted. -/
theorem c5_counterexample :
    (commitTx (createTable (newTx st0).2 "x" ["a", "b"]).2).1 = none ∧
    manifestKeysAt c5St.store (logKey 1) = some ["Actions"] ∧
    "id" ∉ ["Actions"] ∧ "tables" ∉ ["Actions"] := by
  exact ⟨rfl, rfl, by decide, by decide⟩

end otf
